import Mathlib

/-!
# Admiral job controller: the job cache and its controller callbacks

A shallow embedding of `admiral/pkg/controller/admiral/job.go`, followed by the
hierarchical cache primitives of package `common` that `types_test.go` exercises.

Memory model.  The Go code stores `*common.K8sObject` pointers in the cache and
mutates the pointed-to records in place, so records live in an explicit heap:
an address is a natural number, `State.objs` gives the contents of every cell and
`State.next` is the first address that has not been allocated yet.  A Go map
`map[string]T` is a function `String → Option T` (`none` = key absent).  Stored
pointers are never nil in the source (every store is of a freshly built or
dereferenced record), so a present key with a nil value is not represented.
`*JobEntry` values are kept by value under their key.  The mutex is not modelled:
all statements are about sequential executions.
-/

namespace Admiral

/-- Go `map[string]string` (annotations, labels). -/
abbrev StringMap := List (String × String)

/-- Heap address of a `common.K8sObject`. -/
abbrev Addr := Nat

/-- Go assignment `m[k] = v` on a map. -/
def setKey {α : Type} (m : String → Option α) (k : String) (v : α) : String → Option α :=
  fun x => if x = k then some v else m x

/-- The empty Go map `make(map[string]T)`. -/
def emptyMap {α : Type} : String → Option α := fun _ => none

/-- An error value built by `fmt.Errorf(format, args...)`. -/
structure GoError where
  format : String
  args : List String
deriving DecidableEq, Repr

namespace v12

/-- The pod template metadata read by the controller (`job.Spec.Template`). -/
structure PodTemplateSpec where
  Annotations : StringMap
  Labels : StringMap
deriving DecidableEq, Repr

/-- The part of `batch/v1.JobSpec` read by the controller. -/
structure JobSpec where
  Template : PodTemplateSpec
deriving DecidableEq, Repr

/-- The part of `batch/v1.Job` read by the controller. -/
structure Job where
  Name : String
  Namespace : String
  Generation : Int
  Spec : JobSpec
deriving DecidableEq, Repr

end v12

namespace common

/-- Modelled from the spec: the processing status `not-processed`
(constant `common.NotProcessed`, declared outside the given sources). -/
def NotProcessed : String := "not-processed"

/-- Modelled from the spec: the processing status `processing-in-progress`
(constant `common.ProcessingInProgress`, declared outside the given sources). -/
def ProcessingInProgress : String := "processing-in-progress"

/-- Modelled from the spec: the processing status `processed`
(constant `common.Processed`, declared outside the given sources). -/
def Processed : String := "processed"

/-- Modelled from the spec: the resource-type tag of a batch Job
(constant `common.Job`, declared outside the given sources). -/
def Job : String := "Job"

/-- The normalized resource record `common.K8sObject`, with the fields that
`getK8sObjectFromJob` fills in (`Type_` is the Go field `Type`). -/
structure K8sObject where
  Name : String
  Namespace : String
  Annotations : StringMap
  Labels : StringMap
  Status : String
  Type_ : String
deriving DecidableEq, Repr

/-- The functions of package `common` that the controller calls but that are
declared elsewhere: the identity derivation, the ignore policy and the
generation-check flag.  They are parameters of every definition below. -/
structure Env where
  GetGlobalIdentifier : StringMap → StringMap → String
  ShouldIgnore : StringMap → StringMap → Bool
  DoGenerationCheck : Bool

end common

/-- Modelled from the spec: the format string `LogCacheFormat` of the cache
errors (declared outside the given sources); the error identifies operation,
resource kind, name and namespace.  The text is the one `job.go` uses for its
own log line with the same six arguments; no statement depends on it. -/
def LogCacheFormat : String :=
  "op=%s type=%v name=%v namespace=%s cluster=%s message=%s"

/-- A dynamically typed payload `interface{}`: either a `*v12.Job` or a value of
any other dynamic type, with its `%v` rendering. -/
inductive Object where
  | job (j : v12.Job)
  | other (rendering : String)
deriving DecidableEq, Repr

/-- `JobEntry`: the namespaces of one identity, each with the address of its record. -/
structure JobEntry where
  Identity : String
  Jobs : String → Option Addr

/-- `jobCache`: identity to entry.  (The comment on this field in the source,
"value array of onboarded identities", describes the dependency cache it was
taken from; the declared type and `Put` are what is embedded.) -/
structure jobCache where
  cache : String → Option JobEntry

/-- The memory the controller works on: its `Cache` and the heap of records. -/
structure State where
  Cache : jobCache
  objs : Addr → common.K8sObject
  next : Addr

/-- Write a record into a heap cell. -/
def setCell (objs : Addr → common.K8sObject) (a : Addr) (o : common.K8sObject) :
    Addr → common.K8sObject :=
  fun x => if x = a then o else objs x

/-- `NewJobCache()`. -/
def NewJobCache : jobCache := { cache := emptyMap }

/-- `getK8sObjectFromJob(job)`: the record built from a Job (as a value; it is
placed on the heap where the source lets the pointer escape). -/
def getK8sObjectFromJob (job : v12.Job) : common.K8sObject :=
  { Name := job.Name
    Namespace := job.Namespace
    Annotations := job.Spec.Template.Annotations
    Labels := job.Spec.Template.Labels
    Status := common.NotProcessed
    Type_ := common.Job }

/-- `(*jobCache).Put(job)`: `job` is the address of the caller's record.  Returns
the new state and the returned pointer. -/
def jobCache.Put (C : common.Env) (s : State) (job : Addr) : State × Addr :=
  let identity := C.GetGlobalIdentifier (s.objs job).Annotations (s.objs job).Labels
  match s.Cache.cache identity with
  | none =>
    let existingJobs : JobEntry :=
      { Identity := identity
        Jobs := setKey emptyMap (s.objs job).Namespace job }
    ({ s with Cache := { cache := setKey s.Cache.cache identity existingJobs } }, job)
  | some existingJobs =>
    match existingJobs.Jobs (s.objs job).Namespace with
    | none =>
      let existingJobs1 : JobEntry :=
        { existingJobs with Jobs := setKey existingJobs.Jobs (s.objs job).Namespace job }
      ({ s with Cache := { cache := setKey s.Cache.cache identity existingJobs1 } }, job)
    | some _ => (s, job)

/-- `(*jobCache).Get(key, namespace)`: `none` is the nil pointer. -/
def jobCache.Get (s : State) (key : String) (ns : String) : Option Addr :=
  match s.Cache.cache key with
  | some jce =>
    match jce.Jobs ns with
    | some j => some j
    | none => none
  | none => none

/-- `(*jobCache).GetJobProcessStatus(job)`: the state after the call, the status
and the error. -/
def jobCache.GetJobProcessStatus (C : common.Env) (s : State) (job : v12.Job) :
    State × String × Option GoError :=
  let jobObj := getK8sObjectFromJob job
  let identity := C.GetGlobalIdentifier jobObj.Annotations jobObj.Labels
  match s.Cache.cache identity with
  | some jce =>
    match jce.Jobs job.Namespace with
    | some jobFromNamespace => (s, (s.objs jobFromNamespace).Status, none)
    | none => (s, common.NotProcessed, none)
  | none => (s, common.NotProcessed, none)

/-- `(*jobCache).UpdateJobProcessStatus(job, status)`: the state after the call and
the error.  `jce` is a pointer in the source, so the insertion into `jce.Jobs` is
seen under `identity` as well as under the key `jce.Identity` that is reassigned. -/
def jobCache.UpdateJobProcessStatus (C : common.Env) (s : State) (job : v12.Job)
    (status : String) : State × Option GoError :=
  let jobObj := getK8sObjectFromJob job
  let identity := C.GetGlobalIdentifier jobObj.Annotations jobObj.Labels
  match s.Cache.cache identity with
  | some jce =>
    match jce.Jobs job.Namespace with
    | some jobFromNamespace =>
      ({ s with
          objs := setCell s.objs jobFromNamespace
            { s.objs jobFromNamespace with Status := status }
          Cache := { cache := setKey s.Cache.cache jce.Identity jce } }, none)
    | none =>
      let newJob := s.next
      let jce1 : JobEntry := { jce with Jobs := setKey jce.Jobs job.Namespace newJob }
      ({ s with
          objs := setCell s.objs newJob { getK8sObjectFromJob job with Status := status }
          next := s.next + 1
          Cache := { cache := setKey (setKey s.Cache.cache identity jce1) jce.Identity jce1 } },
        none)
  | none =>
    (s, some { format := LogCacheFormat
               args := ["UpdateStatus", "Job", job.Name, job.Namespace, "",
                        "nothing to update, job not found in cache"] })

/-- `(*JobController).DoesGenerationMatch(ctxLogger, obj, oldObj)` (the log lines
are not part of the result). -/
def DoesGenerationMatch (C : common.Env) (obj : Object) (oldObj : Object) :
    Bool × Option GoError :=
  if !C.DoGenerationCheck then (false, none)
  else
    match obj with
    | .other r =>
      (false, some { format := "type assertion failed, %v is not of type *Job", args := [r] })
    | .job jobNew =>
      match oldObj with
      | .other r =>
        (false, some { format := "type assertion failed, %v is not of type *Job", args := [r] })
      | .job jobOld =>
        if jobNew.Generation = jobOld.Generation then (true, none) else (false, none)

/-- The `Added` method of the `ClientDiscoveryHandler` plugged into the
controller: it receives the record pointer, may change the memory, and returns
its error. -/
abbrev ClientDiscoveryHandler := State → Addr → State × Option GoError

/-- What a controller callback did: the final state, the handler invocations it
made (each with the state at the moment of the call and the pointer passed), and
the returned error. -/
structure Outcome where
  state : State
  calls : List (State × Addr)
  err : Option GoError

/-- Allocation `&common.K8sObject{...}`: the record is written at the first free
address. -/
def State.alloc (s : State) (o : common.K8sObject) : State × Addr :=
  ({ s with objs := setCell s.objs s.next o, next := s.next + 1 }, s.next)

/-- `addUpdateJob(j, ctx, obj)` for a controller with handler `JobHandler`. -/
def addUpdateJob (C : common.Env) (JobHandler : ClientDiscoveryHandler) (s : State)
    (obj : Object) : Outcome :=
  match obj with
  | .other _ =>
    { state := s, calls := []
      err := some { format := "failed to covert informer object to Job", args := [] } }
  | .job job =>
    if !C.ShouldIgnore job.Spec.Template.Annotations job.Spec.Template.Labels then
      let a := s.alloc (getK8sObjectFromJob job)
      let k8sObj := a.2
      let r := jobCache.Put C a.1 k8sObj
      let newK8sObj := r.2
      let s3 : State :=
        { r.1 with
            objs := setCell r.1.objs newK8sObj
              { r.1.objs newK8sObj with Status := common.ProcessingInProgress } }
      let h := JobHandler s3 newK8sObj
      { state := h.1, calls := [(s3, newK8sObj)], err := h.2 }
    else
      { state := s, calls := [], err := none }

/-- `(*JobController).Added(ctx, obj)`. -/
def Added (C : common.Env) (JobHandler : ClientDiscoveryHandler) (s : State)
    (obj : Object) : Outcome :=
  addUpdateJob C JobHandler s obj

/-- `(*JobController).Updated(ctx, obj, oldObj)`: a no-op. -/
def Updated (s : State) (_obj : Object) (_oldObj : Object) : Outcome :=
  { state := s, calls := [], err := none }

/-- `(*JobController).Deleted(ctx, obj)`: a no-op. -/
def Deleted (s : State) (_obj : Object) : Outcome :=
  { state := s, calls := [], err := none }

/-- `(*JobController).GetProcessItemStatus(obj)`: the state after the call, the
status and the error. -/
def GetProcessItemStatus (C : common.Env) (s : State) (obj : Object) :
    State × String × Option GoError :=
  match obj with
  | .other r =>
    (s, common.NotProcessed,
      some { format := "type assertion failed, %v is not of type *common.K8sObject"
             args := [r] })
  | .job job => jobCache.GetJobProcessStatus C s job

/-- `(*JobController).UpdateProcessItemStatus(obj, status)`: the state after the
call and the error. -/
def UpdateProcessItemStatus (C : common.Env) (s : State) (obj : Object) (status : String) :
    State × Option GoError :=
  match obj with
  | .other r =>
    (s, some { format := "type assertion failed, %v is not of type *Job", args := [r] })
  | .job job => jobCache.UpdateJobProcessStatus C s job status

/-- The one method of `kubernetes.Interface` that the controller calls,
`BatchV1().Jobs(namespace).Get(ctx, name, opts)`: namespace and name to the Job
fetched and the error. -/
abbrev KubeClient := String → String → Option v12.Job × Option GoError

/-- The `interface{}` value returned by `(*JobController).Get`: the pointer read
from the cache (possibly nil), the Job fetched by the client, or plain nil. -/
inductive GetValue where
  | cached (p : Option Addr)
  | live (j : Option v12.Job)
  | nil
deriving DecidableEq, Repr

/-- What `(*JobController).Get` did: the value and error returned, and the calls
made on `K8sClient` (namespace and name of each). -/
structure GetOutcome where
  value : GetValue
  err : Option GoError
  clientCalls : List (String × String)
deriving DecidableEq, Repr

/-- `(*JobController).Get(ctx, isRetry, obj)`; `K8sClient` is `none` when the
field is nil and `txId` is `ctx.Value("txId")`. -/
def JobController.Get (C : common.Env) (K8sClient : Option KubeClient) (txId : String)
    (s : State) (isRetry : Bool) (obj : Object) : GetOutcome :=
  match obj with
  | .job job =>
    if isRetry then
      let jobObj := getK8sObjectFromJob job
      let identity := C.GetGlobalIdentifier jobObj.Annotations jobObj.Labels
      { value := .cached (jobCache.Get s identity job.Namespace), err := none
        clientCalls := [] }
    else
      match K8sClient with
      | some client =>
        { value := .live (client job.Namespace job.Name).1
          err := (client job.Namespace job.Name).2
          clientCalls := [(job.Namespace, job.Name)] }
      | none =>
        { value := .nil
          err := some { format := "kubernetes client is not initialized, txId=%s"
                        args := [txId] }
          clientCalls := [] }
  | .other _ =>
    { value := .nil
      err := some { format := "kubernetes client is not initialized, txId=%s"
                    args := [txId] }
      clientCalls := [] }

/-! ### Observations and invariants used in the statements -/

/-- The record found by `Get(key, ns)`, dereferenced: what the cache holds for
the pair. -/
def State.record (s : State) (key : String) (ns : String) : Option common.K8sObject :=
  (jobCache.Get s key ns).map s.objs

/-- Every pointer stored in the cache points to an allocated cell. -/
def State.NoDangling (s : State) : Prop :=
  ∀ k n a, jobCache.Get s k n = some a → a < s.next

/-- Indexing invariant of the cache: the entry under key `k` has `Identity = k`,
and the record stored in it under namespace `n` has `Namespace = n` and
identity `k`. -/
def State.Indexed (C : common.Env) (s : State) : Prop :=
  ∀ k e, s.Cache.cache k = some e →
    e.Identity = k ∧
    ∀ n a, e.Jobs n = some a →
      (s.objs a).Namespace = n ∧
      C.GetGlobalIdentifier (s.objs a).Annotations (s.objs a).Labels = k

/-- A handler that does not modify the cache: it leaves the cache maps and every
cached record as they are, and frees nothing. -/
def KeepsCache (JobHandler : ClientDiscoveryHandler) : Prop :=
  ∀ s a, (JobHandler s a).1.Cache = s.Cache ∧ s.next ≤ (JobHandler s a).1.next ∧
    ∀ k n b, jobCache.Get s k n = some b → (JobHandler s a).1.objs b = s.objs b

/-- The identity under which a Job is cached: `GetGlobalIdentifier` of its
template annotations and labels. -/
def jobIdentity (C : common.Env) (job : v12.Job) : String :=
  C.GetGlobalIdentifier job.Spec.Template.Annotations job.Spec.Template.Labels

/-- The state in which `addUpdateJob` invokes the handler for a Job that is not
ignored: the record is allocated, handed to `Put`, and the record that `Put`
returns has its status set. -/
def stateAtHandlerCall (C : common.Env) (s : State) (job : v12.Job) : State :=
  let a := s.alloc (getK8sObjectFromJob job)
  let r := jobCache.Put C a.1 a.2
  { r.1 with
      objs := setCell r.1.objs r.2
        { r.1.objs r.2 with Status := common.ProcessingInProgress } }

/-- Well-formedness of the cache: the entry under key `k` has `Identity = k` and
a non-empty `Jobs` map, and the record stored in it under namespace `n` has
`Namespace = n` and identity `k`. -/
def State.WellFormed (C : common.Env) (s : State) : Prop :=
  ∀ k e, s.Cache.cache k = some e →
    e.Identity = k ∧
    (∃ n a, e.Jobs n = some a) ∧
    ∀ n a, e.Jobs n = some a →
      (s.objs a).Namespace = n ∧
      C.GetGlobalIdentifier (s.objs a).Annotations (s.objs a).Labels = k

/-- A handler that leaves the indexing of the cache alone: it keeps the cache
maps, frees nothing, and keeps namespace, annotations and labels of every cached
record.  It may write the `Status` of any record, the one it is handed included,
and do anything to records that are not cached. -/
def KeepsIndex (JobHandler : ClientDiscoveryHandler) : Prop :=
  ∀ s a, (JobHandler s a).1.Cache = s.Cache ∧ s.next ≤ (JobHandler s a).1.next ∧
    ∀ k n b, jobCache.Get s k n = some b →
      ((JobHandler s a).1.objs b).Namespace = (s.objs b).Namespace
      ∧ ((JobHandler s a).1.objs b).Annotations = (s.objs b).Annotations
      ∧ ((JobHandler s a).1.objs b).Labels = (s.objs b).Labels

/-- The memories reachable from `NewJobCache()` with handlers taken from `H`: the
cache starts empty over any heap; a caller may build a record, `Put` an
allocated record, call `UpdateJobProcessStatus`, or call `addUpdateJob` on a
controller whose handler is in `H`.  With `H` true of every handler these are
all sequences of `Put`, `UpdateJobProcessStatus` and `addUpdateJob` calls. -/
inductive Reachable (C : common.Env) (H : ClientDiscoveryHandler → Prop) : State → Prop where
  | init (objs : Addr → common.K8sObject) (next : Addr) :
      Reachable C H { Cache := NewJobCache, objs := objs, next := next }
  | build (s : State) (o : common.K8sObject) :
      Reachable C H s → Reachable C H (s.alloc o).1
  | put (s : State) (r : Addr) :
      Reachable C H s → r < s.next → Reachable C H (jobCache.Put C s r).1
  | update (s : State) (job : v12.Job) (status : String) :
      Reachable C H s → Reachable C H (jobCache.UpdateJobProcessStatus C s job status).1
  | addUpdate (s : State) (h : ClientDiscoveryHandler) (obj : Object) :
      Reachable C H s → H h → Reachable C H (addUpdateJob C h s obj).state

/-! ### A concrete instance, for evaluation -/

/-- Value of a key in a string map, empty when absent (Go `m[k]`). -/
def lookupStr (m : StringMap) (k : String) : String :=
  (m.lookup k).getD ""

/-- A sample instance of the `common` functions: the identity is the `identity`
annotation, falling back to the `identity` label; a resource is ignored when its
`admiral.io/ignore` annotation is `true`; generation checks are on. -/
def demoEnv : common.Env :=
  { GetGlobalIdentifier := fun ann lab =>
      if lookupStr ann "identity" = "" then lookupStr lab "identity"
      else lookupStr ann "identity"
    ShouldIgnore := fun ann _ => lookupStr ann "admiral.io/ignore" = "true"
    DoGenerationCheck := true }

/-- The sample instance with generation checks off. -/
def demoEnvNoCheck : common.Env := { demoEnv with DoGenerationCheck := false }

/-- A Job in namespace `ns` whose template carries identity `checkout`. -/
def demoJob : v12.Job :=
  { Name := "settle", Namespace := "ns", Generation := 5
    Spec := { Template := { Annotations := [("identity", "checkout")], Labels := [] } } }

/-- A Job that the sample ignore policy excludes. -/
def demoIgnoredJob : v12.Job :=
  { Name := "skip", Namespace := "ns", Generation := 1
    Spec := { Template :=
      { Annotations := [("identity", "checkout"), ("admiral.io/ignore", "true")]
        Labels := [] } } }

/-- The zero value of `common.K8sObject`. -/
def zeroObject : common.K8sObject :=
  { Name := "", Namespace := "", Annotations := [], Labels := [], Status := "", Type_ := "" }

/-- The memory of a fresh controller: empty cache, nothing allocated. -/
def emptyState : State :=
  { Cache := NewJobCache, objs := fun _ => zeroObject, next := 0 }

/-- A handler that succeeds and touches nothing. -/
def idleHandler : ClientDiscoveryHandler := fun s _ => (s, none)

/-- A memory in which `demoJob` has been added and then marked processed. -/
def processedState : State :=
  (jobCache.UpdateJobProcessStatus demoEnv
    (Added demoEnv idleHandler emptyState (.job demoJob)).state demoJob common.Processed).1

/-- A memory in which `demoJob` has been added once. -/
def addedState : State :=
  (Added demoEnv idleHandler emptyState (.job demoJob)).state

/-- A memory holding the processed `demoJob` record (address 0) and a second,
freshly built record for the same Job (address 1) that is not in the cache. -/
def redeliveryState : State :=
  (processedState.alloc (getK8sObjectFromJob demoJob)).1

/-- A failing client: every fetch is an error. -/
def failingClient : KubeClient := fun _ _ =>
  (none, some { format := "connection refused", args := [] })

/-- A handler that moves the record it is handed to another namespace. -/
def renamingHandler : ClientDiscoveryHandler := fun s a =>
  ({ s with objs := setCell s.objs a { s.objs a with Namespace := "elsewhere" } }, none)

/-- A handler that marks the record it is handed as processed. -/
def statusHandler : ClientDiscoveryHandler := fun s a =>
  ({ s with objs := setCell s.objs a { s.objs a with Status := common.Processed } }, none)

/-- The memory after a first `addUpdateJob` of `demoJob` with `renamingHandler`. -/
def renamedState : State :=
  (addUpdateJob demoEnv renamingHandler emptyState (.job demoJob)).state

/-- The memory after a first `addUpdateJob` of `demoJob` with `statusHandler`. -/
def handledState : State :=
  (addUpdateJob demoEnv statusHandler emptyState (.job demoJob)).state

/-! ### Hierarchical cache primitives of package `common`

The source of these containers is not among the given files (only their tests
are), so they are modelled from the specification.  A container is kept by
value; an inner container obtained with `Get` and then modified is modelled by
the corresponding write on the outer container.  Locks are not modelled. -/

namespace common

/-- A Go map with string keys whose keys can be counted and ranged over: an
association list without duplicate keys. -/
abbrev Table (V : Type) := AList (fun _ : String => V)

/-- Modelled from the spec: `Range(callback)` of every container (the functions
are declared outside the given sources): the callback is invoked once per
top-level key with the value stored under it; `acc` is what the callback
accumulates. -/
def rangeOver {V σ : Type} (t : Table V) (fn : String → V → σ → σ) (acc : σ) : σ :=
  t.entries.foldl (fun a e => fn e.1 e.2 a) acc

/-- The invocations that `Range` makes: key and value passed, in order. -/
def rangeCalls {V : Type} (t : Table V) : List (String × V) :=
  rangeOver t (fun k v acc => acc ++ [(k, v)]) []

/-- Modelled from the spec: the single-level `Map` (declared outside the given
sources), from string key to string value. -/
structure Map where
  cache : Table String
deriving DecidableEq

/-- Modelled from the spec: `NewMap()` (declared outside the given sources), the
empty map. -/
def NewMap : Map := { cache := ∅ }

/-- Modelled from the spec: `Map.Put(key, value)` (declared outside the given
sources); the value of the key is overwritten; never fails. -/
def Map.Put (m : Map) (key value : String) : Map :=
  { cache := m.cache.insert key value }

/-- Modelled from the spec: `Map.Get(key)` (declared outside the given sources);
an absent key yields the empty string, not an error. -/
def Map.Get (m : Map) (key : String) : String :=
  (m.cache.lookup key).getD ""

/-- Modelled from the spec: `Map.Delete(key)` (declared outside the given
sources). -/
def Map.Delete (m : Map) (key : String) : Map :=
  { cache := m.cache.erase key }

/-- Modelled from the spec: `Map.Range(callback)` (declared outside the given
sources). -/
def Map.Range {σ : Type} (m : Map) (fn : String → String → σ → σ) (acc : σ) : σ :=
  rangeOver m.cache fn acc

/-- Modelled from the spec: `MapOfMaps` (declared outside the given sources),
from string key to a single-level `Map`. -/
structure MapOfMaps where
  cache : Table Map
deriving DecidableEq

/-- Modelled from the spec: `NewMapOfMaps()` (declared outside the given
sources). -/
def NewMapOfMaps : MapOfMaps := { cache := ∅ }

/-- Modelled from the spec: `MapOfMaps.Put(outerKey, innerKey, value)` (declared
outside the given sources): the inner map is created on first use and kept
afterwards; the value of the inner key is overwritten. -/
def MapOfMaps.Put (m : MapOfMaps) (pkey key value : String) : MapOfMaps :=
  { cache := m.cache.insert pkey (((m.cache.lookup pkey).getD NewMap).Put key value) }

/-- Modelled from the spec: `MapOfMaps.Get(outerKey)` (declared outside the
given sources); `none` is nil, returned for an absent key. -/
def MapOfMaps.Get (m : MapOfMaps) (pkey : String) : Option Map :=
  m.cache.lookup pkey

/-- Modelled from the spec: `MapOfMaps.Delete(outerKey)` (declared outside the
given sources): removes the whole inner map. -/
def MapOfMaps.Delete (m : MapOfMaps) (pkey : String) : MapOfMaps :=
  { cache := m.cache.erase pkey }

/-- Modelled from the spec: `MapOfMaps.DeleteMap(outerKey, innerKey)` (declared
outside the given sources): removes one inner entry and keeps the outer entry,
also when the inner map becomes empty; nothing happens for an absent outer key. -/
def MapOfMaps.DeleteMap (m : MapOfMaps) (pkey key : String) : MapOfMaps :=
  match m.cache.lookup pkey with
  | none => m
  | some inner => { cache := m.cache.insert pkey (inner.Delete key) }

/-- Modelled from the spec: `MapOfMaps.Range(callback)` (declared outside the
given sources). -/
def MapOfMaps.Range {σ : Type} (m : MapOfMaps) (fn : String → Map → σ → σ) (acc : σ) : σ :=
  rangeOver m.cache fn acc

/-- Modelled from the spec: `MapOfMapOfMaps` (declared outside the given
sources), from string key to a `MapOfMaps`. -/
structure MapOfMapOfMaps where
  cache : Table MapOfMaps
deriving DecidableEq

/-- Modelled from the spec: `NewMapOfMapOfMaps()` (declared outside the given
sources). -/
def NewMapOfMapOfMaps : MapOfMapOfMaps := { cache := ∅ }

/-- Modelled from the spec: `MapOfMapOfMaps.Put` with four positional arguments
(declared outside the given sources): get-or-create along the key path, the
last level's value is overwritten. -/
def MapOfMapOfMaps.Put (m : MapOfMapOfMaps) (pkey skey key value : String) :
    MapOfMapOfMaps :=
  { cache := m.cache.insert pkey
      (((m.cache.lookup pkey).getD NewMapOfMaps).Put skey key value) }

/-- Modelled from the spec: `MapOfMapOfMaps.PutMapofMaps(key, mapOfMaps)`
(declared outside the given sources): grafts a pre-built `MapOfMaps` under the
key, replacing that branch. -/
def MapOfMapOfMaps.PutMapofMaps (m : MapOfMapOfMaps) (pkey : String) (mm : MapOfMaps) :
    MapOfMapOfMaps :=
  { cache := m.cache.insert pkey mm }

/-- Modelled from the spec: `MapOfMapOfMaps.Get(outerKey)` (declared outside the
given sources); `none` is nil. -/
def MapOfMapOfMaps.Get (m : MapOfMapOfMaps) (pkey : String) : Option MapOfMaps :=
  m.cache.lookup pkey

/-- Modelled from the spec: `MapOfMapOfMaps.Len()` (declared outside the given
sources), the number of outer keys. -/
def MapOfMapOfMaps.Len (m : MapOfMapOfMaps) : Nat :=
  m.cache.keys.length

/-- Modelled from the spec: `m.Get(pkey).Delete(skey)`, the deletion of a
second-level key through the `MapOfMaps` that `Get` returns (the functions are
declared outside the given sources); the returned container is the stored one,
so the deletion is seen by the outer container. -/
def MapOfMapOfMaps.DeleteVia (m : MapOfMapOfMaps) (pkey skey : String) : MapOfMapOfMaps :=
  match m.cache.lookup pkey with
  | none => m
  | some mm => { cache := m.cache.insert pkey (mm.Delete skey) }

/-- Modelled from the spec: `SidecarEgress` (declared outside the given
sources): an FQDN and a map of named egress targets. -/
structure SidecarEgress where
  FQDN : String
  EgressSet : StringMap
deriving DecidableEq

/-- Modelled from the spec: `SidecarEgressMap` (declared outside the given
sources): outer key to dependency key to cluster/namespace key to
`SidecarEgress`. -/
structure SidecarEgressMap where
  cache : Table (Table (Table SidecarEgress))
deriving DecidableEq

/-- Modelled from the spec: `NewSidecarEgressMap()` (declared outside the given
sources). -/
def NewSidecarEgressMap : SidecarEgressMap := { cache := ∅ }

/-- Modelled from the spec: `SidecarEgressMap.Put(outerKey, depKey, innerKey,
fqdn, egressSet)` (declared outside the given sources): merges into the entries
that exist along the key path and overwrites the last level. -/
def SidecarEgressMap.Put (m : SidecarEgressMap) (outerKey depKey innerKey fqdn : String)
    (egressSet : StringMap) : SidecarEgressMap :=
  { cache := m.cache.insert outerKey
      (((m.cache.lookup outerKey).getD ∅).insert depKey
        ((((m.cache.lookup outerKey).getD ∅).lookup depKey).getD ∅ |>.insert innerKey
          { FQDN := fqdn, EgressSet := egressSet })) }

/-- Modelled from the spec: `SidecarEgressMap.Get(outerKey)` (declared outside
the given sources): the two-level structure stored under the key, `none` when
absent. -/
def SidecarEgressMap.Get (m : SidecarEgressMap) (outerKey : String) :
    Option (Table (Table SidecarEgress)) :=
  m.cache.lookup outerKey

/-- Modelled from the spec: `SidecarEgressMap.Range(callback)` (declared outside
the given sources). -/
def SidecarEgressMap.Range {σ : Type} (m : SidecarEgressMap)
    (fn : String → Table (Table SidecarEgress) → σ → σ) (acc : σ) : σ :=
  rangeOver m.cache fn acc

/-- A call on a `MapOfMaps`. -/
inductive MapOfMapsCall where
  | put (pkey key value : String)
  | delete (pkey : String)
  | deleteMap (pkey key : String)
deriving DecidableEq

/-- Perform one call on a `MapOfMaps`. -/
def MapOfMapsCall.run (m : MapOfMaps) : MapOfMapsCall → MapOfMaps
  | .put p k v => m.Put p k v
  | .delete p => m.Delete p
  | .deleteMap p k => m.DeleteMap p k

/-- The outer keys that a sequence of calls on a `MapOfMaps` puts. -/
def MapOfMapsCall.putKeys : List MapOfMapsCall → List String
  | [] => []
  | .put p _ _ :: cs => p :: MapOfMapsCall.putKeys cs
  | _ :: cs => MapOfMapsCall.putKeys cs

/-- A `Put` or `PutMapofMaps` call on a `MapOfMapOfMaps`. -/
inductive MapOfMapOfMapsCall where
  | put (pkey skey key value : String)
  | putMapofMaps (pkey : String) (mm : MapOfMaps)
deriving DecidableEq

/-- Perform one call on a `MapOfMapOfMaps`. -/
def MapOfMapOfMapsCall.run (m : MapOfMapOfMaps) : MapOfMapOfMapsCall → MapOfMapOfMaps
  | .put p s k v => m.Put p s k v
  | .putMapofMaps p mm => m.PutMapofMaps p mm

/-- The outer key that a call on a `MapOfMapOfMaps` uses. -/
def MapOfMapOfMapsCall.outerKey : MapOfMapOfMapsCall → String
  | .put p _ _ _ => p
  | .putMapofMaps p _ => p

/-- What `Range` does on a table, in terms of its invocations: every key is
passed once, a pair is passed exactly when the key is stored with that value,
and there are as many invocations as stored keys. -/
def RangeVisitsEachKeyOnce {V : Type} (t : Table V) : Prop :=
  ((rangeCalls t).map Prod.fst).Nodup
  ∧ (∀ k v, (k, v) ∈ rangeCalls t ↔ t.lookup k = some v)
  ∧ (rangeCalls t).length = t.keys.length

/-- The `MapOfMaps` of `TestDeleteMapOfMaps`: two inner keys under `pkey1`. -/
def demoMapOfMaps : MapOfMaps :=
  (NewMapOfMaps.Put "pkey1" "dev.a.global1" "127.0.10.1").Put "pkey1" "dev.a.global2"
    "127.0.10.2"

/-- The calls of `TestMapOfMapOfMaps` up to its `Len` check. -/
def demoCalls : List MapOfMapOfMapsCall :=
  [.put "pkey1" "dev.a.global1" "127.0.10.1" "ns1",
   .put "pkey1" "dev.a.global2" "127.0.10.2" "ns2",
   .put "pkey2" "qa.a.global" "127.0.10.1" "ns3",
   .put "pkey2" "qa.a.global" "127.0.10.2" "ns4"]

/-- The `Map` of `TestMapRange`: three keys. -/
def demoMap : Map :=
  ((NewMap.Put "pkey1" "127.0.10.2").Put "pkey2" "127.0.10.1").Put "pkey3" "127.0.10.1"

end common

/-! ## Theorems -/

/-- `Put` when the identity is not a key of the cache. -/
theorem Put_new_identity (C : common.Env) (s : State) (r : Addr)
    (h : s.Cache.cache (C.GetGlobalIdentifier (s.objs r).Annotations (s.objs r).Labels) = none) :
    jobCache.Put C s r =
      ({ s with
          Cache := ⟨setKey s.Cache.cache
            (C.GetGlobalIdentifier (s.objs r).Annotations (s.objs r).Labels)
            ⟨C.GetGlobalIdentifier (s.objs r).Annotations (s.objs r).Labels,
              setKey emptyMap (s.objs r).Namespace r⟩⟩ }, r) := by
  simp only [jobCache.Put, h]

/-- `Put` when the identity is a key and the namespace is not. -/
theorem Put_new_namespace (C : common.Env) (s : State) (r : Addr) (e : JobEntry)
    (h : s.Cache.cache (C.GetGlobalIdentifier (s.objs r).Annotations (s.objs r).Labels) = some e)
    (h2 : e.Jobs (s.objs r).Namespace = none) :
    jobCache.Put C s r =
      ({ s with
          Cache := ⟨setKey s.Cache.cache
            (C.GetGlobalIdentifier (s.objs r).Annotations (s.objs r).Labels)
            ⟨e.Identity, setKey e.Jobs (s.objs r).Namespace r⟩⟩ }, r) := by
  simp only [jobCache.Put, h, h2]

/-- `Put` when identity and namespace are both present. -/
theorem Put_present (C : common.Env) (s : State) (r : Addr) (e : JobEntry) (a : Addr)
    (h : s.Cache.cache (C.GetGlobalIdentifier (s.objs r).Annotations (s.objs r).Labels) = some e)
    (h2 : e.Jobs (s.objs r).Namespace = some a) :
    jobCache.Put C s r = (s, r) := by
  simp only [jobCache.Put, h, h2]

/-- `Get` in terms of the two maps. -/
theorem Get_eq (s : State) (k n : String) :
    jobCache.Get s k n = (s.Cache.cache k).bind (fun e => e.Jobs n) := by
  unfold jobCache.Get
  cases s.Cache.cache k with
  | none => rfl
  | some e => cases h : e.Jobs n <;> simp [h]

/-- `Put` always hands back the pointer it was given. -/
theorem Put_returns_arg (C : common.Env) (s : State) (r : Addr) :
    (jobCache.Put C s r).2 = r := by
  cases h : s.Cache.cache (C.GetGlobalIdentifier (s.objs r).Annotations (s.objs r).Labels) with
  | none => rw [Put_new_identity C s r h]
  | some e =>
    cases h2 : e.Jobs (s.objs r).Namespace with
    | none => rw [Put_new_namespace C s r e h h2]
    | some a => rw [Put_present C s r e a h h2]

/-- `Put` never writes to a record and allocates nothing. -/
theorem Put_objs (C : common.Env) (s : State) (r : Addr) :
    (jobCache.Put C s r).1.objs = s.objs ∧ (jobCache.Put C s r).1.next = s.next := by
  cases h : s.Cache.cache (C.GetGlobalIdentifier (s.objs r).Annotations (s.objs r).Labels) with
  | none => rw [Put_new_identity C s r h]; exact ⟨rfl, rfl⟩
  | some e =>
    cases h2 : e.Jobs (s.objs r).Namespace with
    | none => rw [Put_new_namespace C s r e h h2]; exact ⟨rfl, rfl⟩
    | some a => rw [Put_present C s r e a h h2]; exact ⟨rfl, rfl⟩

/-- `Get` on the pair of `r` after `Put(r)`. -/
theorem Put_get_self (C : common.Env) (s : State) (r : Addr) :
    jobCache.Get (jobCache.Put C s r).1
        (C.GetGlobalIdentifier (s.objs r).Annotations (s.objs r).Labels) (s.objs r).Namespace
      = some ((jobCache.Get s
          (C.GetGlobalIdentifier (s.objs r).Annotations (s.objs r).Labels)
          (s.objs r).Namespace).getD r) := by
  cases h1 : s.Cache.cache (C.GetGlobalIdentifier (s.objs r).Annotations (s.objs r).Labels) with
  | none => rw [Put_new_identity C s r h1]; simp [Get_eq, setKey, h1]
  | some e =>
    cases h2 : e.Jobs (s.objs r).Namespace with
    | none => rw [Put_new_namespace C s r e h1 h2]; simp [Get_eq, setKey, h1, h2]
    | some a => rw [Put_present C s r e a h1 h2]; simp [Get_eq, h1, h2]

/-- `Get` on any other pair after `Put(r)`. -/
theorem Put_get_other (C : common.Env) (s : State) (r : Addr) (k n : String)
    (hkn : ¬ (k = C.GetGlobalIdentifier (s.objs r).Annotations (s.objs r).Labels
                ∧ n = (s.objs r).Namespace)) :
    jobCache.Get (jobCache.Put C s r).1 k n = jobCache.Get s k n := by
  cases h1 : s.Cache.cache (C.GetGlobalIdentifier (s.objs r).Annotations (s.objs r).Labels) with
  | none =>
    rw [Put_new_identity C s r h1]
    by_cases hk : k = C.GetGlobalIdentifier (s.objs r).Annotations (s.objs r).Labels
    · have hn : n ≠ (s.objs r).Namespace := fun h => hkn ⟨hk, h⟩
      subst hk
      simp [Get_eq, setKey, h1, hn, emptyMap]
    · simp [Get_eq, setKey, hk]
  | some e =>
    cases h2 : e.Jobs (s.objs r).Namespace with
    | none =>
      rw [Put_new_namespace C s r e h1 h2]
      by_cases hk : k = C.GetGlobalIdentifier (s.objs r).Annotations (s.objs r).Labels
      · have hn : n ≠ (s.objs r).Namespace := fun h => hkn ⟨hk, h⟩
        subst hk
        simp [Get_eq, setKey, h1, hn]
      · simp [Get_eq, setKey, hk]
    | some a => rw [Put_present C s r e a h1 h2]

/-- C1: `Put` is non-destructive.  After `Put(r)`, `Get` on the identity and
namespace of `r` yields the record that was stored there before if there was one
and `r` otherwise; no record is written to; every other (identity, namespace)
pair maps to the same record as before. -/
theorem Put_nondestructive (C : common.Env) (s : State) (r : Addr) :
    jobCache.Get (jobCache.Put C s r).1
        (C.GetGlobalIdentifier (s.objs r).Annotations (s.objs r).Labels) (s.objs r).Namespace
      = some ((jobCache.Get s
          (C.GetGlobalIdentifier (s.objs r).Annotations (s.objs r).Labels)
          (s.objs r).Namespace).getD r)
    ∧ (jobCache.Put C s r).1.objs = s.objs
    ∧ ∀ k n, ¬ (k = C.GetGlobalIdentifier (s.objs r).Annotations (s.objs r).Labels
                  ∧ n = (s.objs r).Namespace) →
        jobCache.Get (jobCache.Put C s r).1 k n = jobCache.Get s k n :=
  ⟨Put_get_self C s r, (Put_objs C s r).1, Put_get_other C s r⟩

theorem Put_nondestructive_witness :
    jobCache.Get (jobCache.Put demoEnv redeliveryState 1).1 "checkout" "ns" = some 0
    ∧ jobCache.Get (jobCache.Put demoEnv redeliveryState 1).1 "checkout" "other"
        = jobCache.Get redeliveryState "checkout" "other" :=
  ⟨(Put_nondestructive demoEnv redeliveryState 1).1,
   (Put_nondestructive demoEnv redeliveryState 1).2.2 "checkout" "other" (by decide)⟩

/-- C2, as stated, fails: in `redeliveryState` the record at address 0 (status
`processed`) is cached under (`checkout`, `ns`); the record at address 1 has the
same identity and namespace; `Put` of address 1 returns address 1, not the cached
record, and the record it returns differs from the cached one. -/
theorem Put_existing_not_returned :
    jobCache.Get redeliveryState "checkout" "ns" = some 0
    ∧ demoEnv.GetGlobalIdentifier (redeliveryState.objs 1).Annotations
        (redeliveryState.objs 1).Labels = "checkout"
    ∧ (redeliveryState.objs 1).Namespace = "ns"
    ∧ (jobCache.Put demoEnv redeliveryState 1).2 ≠ 0
    ∧ redeliveryState.objs (jobCache.Put demoEnv redeliveryState 1).2
        ≠ redeliveryState.objs 0 := by
  decide

/-- C2, amended: when a record `e` is already stored under the identity and
namespace of `r`, `Put(r)` returns `r` itself and changes nothing: the cache
still holds `e` for that pair and no record, `e` included, is modified. -/
theorem Put_existing_returns_arg (C : common.Env) (s : State) (r e : Addr)
    (h : jobCache.Get s (C.GetGlobalIdentifier (s.objs r).Annotations (s.objs r).Labels)
          (s.objs r).Namespace = some e) :
    jobCache.Put C s r = (s, r) := by
  rw [Get_eq] at h
  cases h1 : s.Cache.cache (C.GetGlobalIdentifier (s.objs r).Annotations (s.objs r).Labels) with
  | none => simp [h1] at h
  | some en =>
    rw [h1] at h
    exact Put_present C s r en e h1 h

theorem Put_existing_returns_arg_witness :
    jobCache.Get redeliveryState
        (demoEnv.GetGlobalIdentifier (redeliveryState.objs 1).Annotations
          (redeliveryState.objs 1).Labels)
        (redeliveryState.objs 1).Namespace = some 0
    ∧ jobCache.Put demoEnv redeliveryState 1 = (redeliveryState, 1) :=
  ⟨by decide, Put_existing_returns_arg demoEnv redeliveryState 1 0 (by decide)⟩

/-- C3 fails on redelivery: `demoJob` is not ignored and its record is cached with
status `processed`; `addUpdateJob` invokes the handler exactly once, and at that
moment the record cached under (`checkout`, `ns`) still has status `processed`,
not `processing-in-progress` (the status was written to the uncached record at
address 1 that `Put` handed back). -/
theorem addUpdateJob_redelivery_status :
    demoEnv.ShouldIgnore demoJob.Spec.Template.Annotations demoJob.Spec.Template.Labels = false
    ∧ processedState.record "checkout" "ns" =
        some { getK8sObjectFromJob demoJob with Status := common.Processed }
    ∧ (addUpdateJob demoEnv idleHandler processedState (.job demoJob)).calls.map
        (fun c => (c.1.record "checkout" "ns", c.2, (c.1.objs c.2).Status))
      = [(some { getK8sObjectFromJob demoJob with Status := common.Processed }, 1,
          common.ProcessingInProgress)]
    ∧ common.Processed ≠ common.ProcessingInProgress := by
  decide

/-- C4: `UpdateJobProcessStatus` returns an error exactly when the identity of
the job's template annotations and labels is not a key of the cache, and when it
returns an error the state (cache maps and records) is unchanged. -/
theorem UpdateJobProcessStatus_error_iff (C : common.Env) (s : State) (job : v12.Job)
    (status : String) :
    ((jobCache.UpdateJobProcessStatus C s job status).2 ≠ none ↔
      s.Cache.cache (C.GetGlobalIdentifier job.Spec.Template.Annotations
        job.Spec.Template.Labels) = none)
    ∧ ((jobCache.UpdateJobProcessStatus C s job status).2 ≠ none →
        (jobCache.UpdateJobProcessStatus C s job status).1 = s) := by
  simp only [jobCache.UpdateJobProcessStatus, getK8sObjectFromJob]
  cases h1 : s.Cache.cache (C.GetGlobalIdentifier job.Spec.Template.Annotations
      job.Spec.Template.Labels) with
  | none => simp
  | some e => cases h2 : e.Jobs job.Namespace <;> simp [h2]

theorem UpdateJobProcessStatus_error_iff_witness :
    (jobCache.UpdateJobProcessStatus demoEnv emptyState demoJob common.Processed).2 ≠ none
    ∧ (jobCache.UpdateJobProcessStatus demoEnv emptyState demoJob common.Processed).1
        = emptyState :=
  ⟨by decide,
   (UpdateJobProcessStatus_error_iff demoEnv emptyState demoJob common.Processed).2 (by decide)⟩

/-- `GetJobProcessStatus` in terms of the cached record. -/
theorem GetJobProcessStatus_eval (C : common.Env) (s : State) (job : v12.Job) :
    jobCache.GetJobProcessStatus C s job =
      (s,
       ((s.record (C.GetGlobalIdentifier job.Spec.Template.Annotations
            job.Spec.Template.Labels) job.Namespace).map
          (fun o => o.Status)).getD common.NotProcessed,
       none) := by
  simp only [jobCache.GetJobProcessStatus, getK8sObjectFromJob, State.record, Get_eq]
  cases h1 : s.Cache.cache (C.GetGlobalIdentifier job.Spec.Template.Annotations
      job.Spec.Template.Labels) with
  | none => simp
  | some e => cases h2 : e.Jobs job.Namespace <;> simp [h2]

/-- C6: `GetJobProcessStatus` never returns an error; the status is that of the
record cached under the job's identity and namespace when there is one and
`NotProcessed` when the identity or the namespace is absent; the state is
unchanged. -/
theorem GetJobProcessStatus_spec (C : common.Env) (s : State) (job : v12.Job) :
    (jobCache.GetJobProcessStatus C s job).2.2 = none
    ∧ (jobCache.GetJobProcessStatus C s job).1 = s
    ∧ (∀ a, jobCache.Get s (jobIdentity C job) job.Namespace = some a →
        (jobCache.GetJobProcessStatus C s job).2.1 = (s.objs a).Status)
    ∧ (jobCache.Get s (jobIdentity C job) job.Namespace = none →
        (jobCache.GetJobProcessStatus C s job).2.1 = common.NotProcessed) := by
  rw [GetJobProcessStatus_eval]
  refine ⟨rfl, rfl, ?_, ?_⟩
  · intro a ha
    unfold jobIdentity at ha
    simp [State.record, ha]
  · intro ha
    unfold jobIdentity at ha
    simp [State.record, ha]

theorem GetJobProcessStatus_spec_witness :
    (jobCache.GetJobProcessStatus demoEnv processedState demoJob).2.1
        = (processedState.objs 0).Status
    ∧ (jobCache.GetJobProcessStatus demoEnv emptyState demoJob).2.1 = common.NotProcessed :=
  ⟨(GetJobProcessStatus_spec demoEnv processedState demoJob).2.2.1 0 (by decide),
   (GetJobProcessStatus_spec demoEnv emptyState demoJob).2.2.2 (by decide)⟩

/-- C7: `DoesGenerationMatch` returns `(true, nil)` exactly when the generation
check is enabled, both payloads are Jobs and their generations are equal; in
every other case the boolean is false. -/
theorem DoesGenerationMatch_true_iff (C : common.Env) (obj oldObj : Object) :
    (DoesGenerationMatch C obj oldObj = (true, none) ↔
      (C.DoGenerationCheck = true ∧
        ∃ jobNew jobOld, obj = .job jobNew ∧ oldObj = .job jobOld ∧
          jobNew.Generation = jobOld.Generation))
    ∧ (¬ (C.DoGenerationCheck = true ∧
        ∃ jobNew jobOld, obj = .job jobNew ∧ oldObj = .job jobOld ∧
          jobNew.Generation = jobOld.Generation) →
        (DoesGenerationMatch C obj oldObj).1 = false) := by
  unfold DoesGenerationMatch
  cases hc : C.DoGenerationCheck with
  | false => simp
  | true =>
    cases obj with
    | other r => simp
    | job jn =>
      cases oldObj with
      | other r => simp
      | job jo =>
        by_cases hg : jn.Generation = jo.Generation <;> simp [hg]

theorem DoesGenerationMatch_true_iff_witness :
    (DoesGenerationMatch demoEnvNoCheck (.job demoJob) (.job demoJob)).1 = false :=
  (DoesGenerationMatch_true_iff demoEnvNoCheck (.job demoJob) (.job demoJob)).2
    (fun h => absurd h.1 (by decide))

/-- C8, as stated, fails: with the generation check disabled, a payload that is
not a Job gives `(false, nil)`: there is no type error. -/
theorem DoesGenerationMatch_disabled_no_error :
    demoEnvNoCheck.DoGenerationCheck = false
    ∧ DoesGenerationMatch demoEnvNoCheck (.other "pod") (.job demoJob) = (false, none) := by
  decide

/-- C8, amended: when the generation check is enabled and `obj` or `oldObj` is
not a Job, `DoesGenerationMatch` returns false together with a type error (a
result, not a panic); when the check is disabled it returns `(false, nil)`
whatever the payloads are. -/
theorem DoesGenerationMatch_type_error (C : common.Env) (obj oldObj : Object) :
    (C.DoGenerationCheck = true →
      ((∀ j, obj ≠ .job j) ∨ (∀ j, oldObj ≠ .job j)) →
      (DoesGenerationMatch C obj oldObj).1 = false ∧
      ∃ r, (DoesGenerationMatch C obj oldObj).2 =
        some { format := "type assertion failed, %v is not of type *Job", args := [r] })
    ∧ (C.DoGenerationCheck = false → DoesGenerationMatch C obj oldObj = (false, none)) := by
  unfold DoesGenerationMatch
  constructor
  · intro hc hty
    cases obj with
    | other r => simp [hc]
    | job jn =>
      cases oldObj with
      | other r => simp [hc]
      | job jo =>
        rcases hty with h | h
        · exact absurd rfl (h jn)
        · exact absurd rfl (h jo)
  · intro hc
    simp [hc]

theorem DoesGenerationMatch_type_error_witness :
    ((DoesGenerationMatch demoEnv (.job demoJob) (.other "pod")).1 = false ∧
      ∃ r, (DoesGenerationMatch demoEnv (.job demoJob) (.other "pod")).2 =
        some { format := "type assertion failed, %v is not of type *Job", args := [r] })
    ∧ DoesGenerationMatch demoEnvNoCheck (.other "pod") (.other "pod") = (false, none) :=
  ⟨(DoesGenerationMatch_type_error demoEnv (.job demoJob) (.other "pod")).1 (by decide)
      (Or.inr (by intro j h; cases h)),
   (DoesGenerationMatch_type_error demoEnvNoCheck (.other "pod") (.other "pod")).2 (by decide)⟩

/-- `UpdateJobProcessStatus` when identity and namespace are both present. -/
theorem Update_present (C : common.Env) (s : State) (job : v12.Job) (status : String)
    (e : JobEntry) (a : Addr)
    (h : s.Cache.cache (C.GetGlobalIdentifier job.Spec.Template.Annotations
          job.Spec.Template.Labels) = some e)
    (h2 : e.Jobs job.Namespace = some a) :
    jobCache.UpdateJobProcessStatus C s job status =
      ({ s with
          objs := setCell s.objs a { s.objs a with Status := status }
          Cache := ⟨setKey s.Cache.cache e.Identity e⟩ }, none) := by
  simp only [jobCache.UpdateJobProcessStatus, getK8sObjectFromJob, h, h2]

/-- `UpdateJobProcessStatus` when the identity is a key and the namespace is not. -/
theorem Update_new_namespace (C : common.Env) (s : State) (job : v12.Job) (status : String)
    (e : JobEntry)
    (h : s.Cache.cache (C.GetGlobalIdentifier job.Spec.Template.Annotations
          job.Spec.Template.Labels) = some e)
    (h2 : e.Jobs job.Namespace = none) :
    jobCache.UpdateJobProcessStatus C s job status =
      ({ s with
          objs := setCell s.objs s.next { getK8sObjectFromJob job with Status := status }
          next := s.next + 1
          Cache := ⟨setKey
            (setKey s.Cache.cache
              (C.GetGlobalIdentifier job.Spec.Template.Annotations job.Spec.Template.Labels)
              ⟨e.Identity, setKey e.Jobs job.Namespace s.next⟩)
            e.Identity ⟨e.Identity, setKey e.Jobs job.Namespace s.next⟩⟩ }, none) := by
  simp only [jobCache.UpdateJobProcessStatus, getK8sObjectFromJob, h, h2]

/-- Under the indexing invariant the fields of a cached record give back the
pair it is stored under. -/
theorem Indexed_get (C : common.Env) (s : State) (h : s.Indexed C) (k n : String) (b : Addr)
    (hg : jobCache.Get s k n = some b) :
    (s.objs b).Namespace = n ∧
      C.GetGlobalIdentifier (s.objs b).Annotations (s.objs b).Labels = k := by
  rw [Get_eq] at hg
  cases hk : s.Cache.cache k with
  | none => simp [hk] at hg
  | some e =>
    rw [hk] at hg
    exact (h k e hk).2 n b hg

/-- A cached pointer points below the allocation mark. -/
theorem NoDangling_get (s : State) (h : s.NoDangling) (k n : String) (b : Addr)
    (hg : jobCache.Get s k n = some b) : b < s.next :=
  h k n b hg

/-- C5: in a cache that contains the job's identity (and satisfies the indexing
and no-dangling-pointer invariants of the job cache), after
`UpdateJobProcessStatus(job, status)` the record found by `Get` for the job's
identity and namespace has that status and `GetJobProcessStatus(job)` returns
`(status, nil)`; a record that existed keeps its address and all fields but
`Status`; if none existed the new record carries the job's name, namespace,
template annotations and labels, type Job and the status; every other
(identity, namespace) pair holds the same record as before. -/
theorem UpdateJobProcessStatus_sets_status (C : common.Env) (s : State) (job : v12.Job)
    (status : String) (hidx : s.Indexed C) (hnd : s.NoDangling)
    (hkey : (s.Cache.cache (jobIdentity C job)).isSome = true) :
    ((jobCache.UpdateJobProcessStatus C s job status).1.record (jobIdentity C job)
        job.Namespace).map (fun o => o.Status) = some status
    ∧ jobCache.GetJobProcessStatus C (jobCache.UpdateJobProcessStatus C s job status).1 job
        = ((jobCache.UpdateJobProcessStatus C s job status).1, status, none)
    ∧ (∀ a, jobCache.Get s (jobIdentity C job) job.Namespace = some a →
        jobCache.Get (jobCache.UpdateJobProcessStatus C s job status).1 (jobIdentity C job)
            job.Namespace = some a
        ∧ (jobCache.UpdateJobProcessStatus C s job status).1.objs a
            = { s.objs a with Status := status })
    ∧ (jobCache.Get s (jobIdentity C job) job.Namespace = none →
        (jobCache.UpdateJobProcessStatus C s job status).1.record (jobIdentity C job)
            job.Namespace
          = some { Name := job.Name, Namespace := job.Namespace
                   Annotations := job.Spec.Template.Annotations
                   Labels := job.Spec.Template.Labels
                   Status := status, Type_ := common.Job })
    ∧ (∀ k n, ¬ (k = jobIdentity C job ∧ n = job.Namespace) →
        (jobCache.UpdateJobProcessStatus C s job status).1.record k n = s.record k n) := by
  cases h1 : s.Cache.cache (jobIdentity C job) with
  | none => simp [h1] at hkey
  | some e =>
    have hid : e.Identity = jobIdentity C job := (hidx _ e h1).1
    have h1r := h1
    unfold jobIdentity at h1r
    cases h2 : e.Jobs job.Namespace with
    | some a =>
      have hU := Update_present C s job status e a h1r h2
      have hget : ∀ k n, jobCache.Get (jobCache.UpdateJobProcessStatus C s job status).1 k n
          = jobCache.Get s k n := by
        intro k n
        rw [hU, Get_eq, Get_eq]
        by_cases hk : k = jobIdentity C job
        · subst hk
          simp [setKey, hid, h1]
        · simp [setKey, hid, hk]
      have hga : jobCache.Get s (jobIdentity C job) job.Namespace = some a := by
        rw [Get_eq, h1]; exact h2
      have hobjs : (jobCache.UpdateJobProcessStatus C s job status).1.objs
          = setCell s.objs a { s.objs a with Status := status } := by
        rw [hU]
      have hstat : ((jobCache.UpdateJobProcessStatus C s job status).1.record
          (jobIdentity C job) job.Namespace).map (fun o => o.Status) = some status := by
        simp [State.record, hget, hga, hobjs, setCell]
      refine ⟨hstat, ?_, ?_, ?_, ?_⟩
      · rw [GetJobProcessStatus_eval]
        have := hstat
        unfold jobIdentity at this
        rw [this]
        rfl
      · intro a1 ha1
        rw [hga] at ha1
        cases ha1
        exact ⟨by rw [hget]; exact hga, by rw [hobjs]; simp [setCell]⟩
      · intro hn
        rw [hga] at hn
        cases hn
      · intro k n hkn
        unfold State.record
        rw [hget, hobjs]
        cases hb : jobCache.Get s k n with
        | none => rfl
        | some b =>
          have hne : b ≠ a := by
            intro hba
            subst hba
            have hb1 := Indexed_get C s hidx k n b hb
            have ha1 := Indexed_get C s hidx _ _ b hga
            exact hkn ⟨hb1.2.symm.trans ha1.2, hb1.1.symm.trans ha1.1⟩
          simp [setCell, hne]
    | none =>
      have hU := Update_new_namespace C s job status e h1r h2
      have hgn : jobCache.Get s (jobIdentity C job) job.Namespace = none := by
        rw [Get_eq, h1]; exact h2
      have hobjs : (jobCache.UpdateJobProcessStatus C s job status).1.objs
          = setCell s.objs s.next { getK8sObjectFromJob job with Status := status } := by
        rw [hU]
      have hnew : jobCache.Get (jobCache.UpdateJobProcessStatus C s job status).1
          (jobIdentity C job) job.Namespace = some s.next := by
        rw [hU, Get_eq]
        simp [setKey, hid, jobIdentity]
      have hrec : (jobCache.UpdateJobProcessStatus C s job status).1.record (jobIdentity C job)
            job.Namespace
          = some { Name := job.Name, Namespace := job.Namespace
                   Annotations := job.Spec.Template.Annotations
                   Labels := job.Spec.Template.Labels
                   Status := status, Type_ := common.Job } := by
        simp [State.record, hnew, hobjs, setCell, getK8sObjectFromJob]
      have hstat : ((jobCache.UpdateJobProcessStatus C s job status).1.record
          (jobIdentity C job) job.Namespace).map (fun o => o.Status) = some status := by
        rw [hrec]; rfl
      refine ⟨hstat, ?_, ?_, fun _ => hrec, ?_⟩
      · rw [GetJobProcessStatus_eval]
        have := hstat
        unfold jobIdentity at this
        rw [this]
        rfl
      · intro a1 ha1
        rw [hgn] at ha1
        cases ha1
      · intro k n hkn
        have hget : jobCache.Get (jobCache.UpdateJobProcessStatus C s job status).1 k n
            = jobCache.Get s k n := by
          rw [hU, Get_eq, Get_eq]
          by_cases hk : k = jobIdentity C job
          · have hn : n ≠ job.Namespace := fun h => hkn ⟨hk, h⟩
            subst hk
            simp [setKey, hid, h1, hn, jobIdentity]
            simp [jobIdentity] at h1
            simp [h1]
          · have hk2 : k ≠ C.GetGlobalIdentifier job.Spec.Template.Annotations
                job.Spec.Template.Labels := hk
            simp [setKey, hid, hk, hk2]
        unfold State.record
        rw [hget, hobjs]
        cases hb : jobCache.Get s k n with
        | none => rfl
        | some b =>
          have hlt := NoDangling_get s hnd k n b hb
          have hne : b ≠ s.next := Nat.ne_of_lt hlt
          simp [setCell, hne]

theorem addedState_Indexed : addedState.Indexed demoEnv := by
  intro k e hk
  have hc : addedState.Cache.cache = setKey emptyMap "checkout"
      ⟨"checkout", setKey emptyMap "ns" 0⟩ := rfl
  rw [hc] at hk
  by_cases hkc : k = "checkout"
  · subst hkc
    simp [setKey] at hk
    subst hk
    refine ⟨rfl, ?_⟩
    intro n a hn
    by_cases hns : n = "ns"
    · subst hns
      simp [setKey] at hn
      subst hn
      decide
    · simp [setKey, emptyMap, hns] at hn
  · simp [setKey, emptyMap, hkc] at hk

theorem addedState_NoDangling : addedState.NoDangling := by
  intro k n a hg
  rw [Get_eq] at hg
  have hc : addedState.Cache.cache = setKey emptyMap "checkout"
      ⟨"checkout", setKey emptyMap "ns" 0⟩ := rfl
  rw [hc] at hg
  by_cases hkc : k = "checkout"
  · subst hkc
    simp only [setKey, if_true, Option.some_bind] at hg
    have hn := hg
    by_cases hns : n = "ns"
    · subst hns
      simp [setKey] at hn
      subst hn
      decide
    · simp [setKey, emptyMap, hns] at hn
  · simp [setKey, emptyMap, hkc] at hg

theorem UpdateJobProcessStatus_sets_status_witness :
    addedState.Indexed demoEnv ∧ addedState.NoDangling
    ∧ (addedState.Cache.cache (jobIdentity demoEnv demoJob)).isSome = true
    ∧ ((jobCache.UpdateJobProcessStatus demoEnv addedState demoJob common.Processed).1.record
        (jobIdentity demoEnv demoJob) demoJob.Namespace).map (fun o => o.Status)
      = some common.Processed :=
  ⟨addedState_Indexed, addedState_NoDangling, by decide,
   (UpdateJobProcessStatus_sets_status demoEnv addedState demoJob common.Processed
      addedState_Indexed addedState_NoDangling (by decide)).1⟩

/-- For a Job that is not ignored, `addUpdateJob` calls the handler once, in the
state `stateAtHandlerCall` and with the freshly allocated pointer, and returns
what the handler returns. -/
theorem addUpdateJob_admitted (C : common.Env) (h : ClientDiscoveryHandler) (s : State)
    (job : v12.Job)
    (hig : C.ShouldIgnore job.Spec.Template.Annotations job.Spec.Template.Labels = false) :
    addUpdateJob C h s (.job job) =
      { state := (h (stateAtHandlerCall C s job) s.next).1
        calls := [(stateAtHandlerCall C s job, s.next)]
        err := (h (stateAtHandlerCall C s job) s.next).2 } := by
  have hr : (jobCache.Put C (s.alloc (getK8sObjectFromJob job)).1
      (s.alloc (getK8sObjectFromJob job)).2).2 = s.next := by
    rw [Put_returns_arg]; rfl
  simp only [addUpdateJob, stateAtHandlerCall, hig, hr]
  rfl

/-- For an ignored Job, `addUpdateJob` does nothing. -/
theorem addUpdateJob_ignored (C : common.Env) (h : ClientDiscoveryHandler) (s : State)
    (job : v12.Job)
    (hig : C.ShouldIgnore job.Spec.Template.Annotations job.Spec.Template.Labels = true) :
    addUpdateJob C h s (.job job) = { state := s, calls := [], err := none } := by
  simp [addUpdateJob, hig]

/-- C9: for a Job that `ShouldIgnore` excludes, `addUpdateJob` and `Added` return
nil, leave the state (cache and records) unchanged and make no handler call; for
a Job it does not exclude, the handler is invoked exactly once and the error
returned, and the state left, are the handler's. -/
theorem addUpdateJob_ignore_policy (C : common.Env) (h : ClientDiscoveryHandler) (s : State)
    (job : v12.Job) :
    (C.ShouldIgnore job.Spec.Template.Annotations job.Spec.Template.Labels = true →
      addUpdateJob C h s (.job job) = { state := s, calls := [], err := none }
      ∧ Added C h s (.job job) = { state := s, calls := [], err := none })
    ∧ (C.ShouldIgnore job.Spec.Template.Annotations job.Spec.Template.Labels = false →
      ∃ s3 a, (Added C h s (.job job)).calls = [(s3, a)]
        ∧ (Added C h s (.job job)).err = (h s3 a).2
        ∧ (Added C h s (.job job)).state = (h s3 a).1
        ∧ Added C h s (.job job) = addUpdateJob C h s (.job job)) := by
  constructor
  · intro hig
    exact ⟨addUpdateJob_ignored C h s job hig, addUpdateJob_ignored C h s job hig⟩
  · intro hig
    refine ⟨stateAtHandlerCall C s job, s.next, ?_, ?_, ?_, rfl⟩ <;>
      simp only [Added, addUpdateJob_admitted C h s job hig]

theorem addUpdateJob_ignore_policy_witness :
    (addUpdateJob demoEnv idleHandler addedState (.job demoIgnoredJob)
        = { state := addedState, calls := [], err := none }
      ∧ Added demoEnv idleHandler addedState (.job demoIgnoredJob)
        = { state := addedState, calls := [], err := none })
    ∧ ∃ s3 a, (Added demoEnv idleHandler addedState (.job demoJob)).calls = [(s3, a)]
        ∧ (Added demoEnv idleHandler addedState (.job demoJob)).err = (idleHandler s3 a).2
        ∧ (Added demoEnv idleHandler addedState (.job demoJob)).state = (idleHandler s3 a).1
        ∧ Added demoEnv idleHandler addedState (.job demoJob)
            = addUpdateJob demoEnv idleHandler addedState (.job demoJob) :=
  ⟨(addUpdateJob_ignore_policy demoEnv idleHandler addedState demoIgnoredJob).1 (by decide),
   (addUpdateJob_ignore_policy demoEnv idleHandler addedState demoJob).2 (by decide)⟩

/-- `Get` reads the cache maps only. -/
theorem Get_congr (s t : State) (h : s.Cache = t.Cache) (k n : String) :
    jobCache.Get s k n = jobCache.Get t k n := by
  rw [Get_eq, Get_eq, h]

/-- Heap of the state in which the handler is called: one new cell, all cells
below the old allocation mark untouched. -/
theorem stateAtHandlerCall_heap (C : common.Env) (s : State) (job : v12.Job) :
    (stateAtHandlerCall C s job).next = s.next + 1
    ∧ ∀ b, b ≠ s.next → (stateAtHandlerCall C s job).objs b = s.objs b := by
  have hr : (jobCache.Put C (s.alloc (getK8sObjectFromJob job)).1
      (s.alloc (getK8sObjectFromJob job)).2).2 = s.next := by
    rw [Put_returns_arg]; rfl
  have ho := Put_objs C (s.alloc (getK8sObjectFromJob job)).1
    (s.alloc (getK8sObjectFromJob job)).2
  constructor
  · simp only [stateAtHandlerCall]
    rw [ho.2]
    rfl
  · intro b hb
    simp only [stateAtHandlerCall]
    rw [hr, ho.1]
    simp [setCell, State.alloc, hb]

/-- Lookup on the job's own pair in the state in which the handler is called. -/
theorem stateAtHandlerCall_get_self (C : common.Env) (s : State) (job : v12.Job) :
    jobCache.Get (stateAtHandlerCall C s job) (jobIdentity C job) job.Namespace
      = some ((jobCache.Get s (jobIdentity C job) job.Namespace).getD s.next) := by
  have h := Put_get_self C (s.alloc (getK8sObjectFromJob job)).1
    (s.alloc (getK8sObjectFromJob job)).2
  have hcell : (s.alloc (getK8sObjectFromJob job)).1.objs (s.alloc (getK8sObjectFromJob job)).2
      = getK8sObjectFromJob job := by
    simp [State.alloc, setCell]
  rw [hcell] at h
  have hc : jobCache.Get (stateAtHandlerCall C s job) (jobIdentity C job) job.Namespace
      = jobCache.Get (jobCache.Put C (s.alloc (getK8sObjectFromJob job)).1
          (s.alloc (getK8sObjectFromJob job)).2).1 (jobIdentity C job) job.Namespace :=
    Get_congr _ _ rfl _ _
  rw [hc]
  have hs : jobCache.Get (s.alloc (getK8sObjectFromJob job)).1 (jobIdentity C job) job.Namespace
      = jobCache.Get s (jobIdentity C job) job.Namespace := Get_congr _ _ rfl _ _
  have h2 : jobCache.Get (jobCache.Put C (s.alloc (getK8sObjectFromJob job)).1
        (s.alloc (getK8sObjectFromJob job)).2).1 (jobIdentity C job) job.Namespace
      = some ((jobCache.Get (s.alloc (getK8sObjectFromJob job)).1 (jobIdentity C job)
          job.Namespace).getD s.next) := h
  rw [h2, hs]

/-- Lookup on any other pair in the state in which the handler is called. -/
theorem stateAtHandlerCall_get_other (C : common.Env) (s : State) (job : v12.Job)
    (k n : String) (hkn : ¬ (k = jobIdentity C job ∧ n = job.Namespace)) :
    jobCache.Get (stateAtHandlerCall C s job) k n = jobCache.Get s k n := by
  have hcell : (s.alloc (getK8sObjectFromJob job)).1.objs (s.alloc (getK8sObjectFromJob job)).2
      = getK8sObjectFromJob job := by
    simp [State.alloc, setCell]
  have h := Put_get_other C (s.alloc (getK8sObjectFromJob job)).1
    (s.alloc (getK8sObjectFromJob job)).2 k n (by rw [hcell]; exact hkn)
  have hc : jobCache.Get (stateAtHandlerCall C s job) k n
      = jobCache.Get (jobCache.Put C (s.alloc (getK8sObjectFromJob job)).1
          (s.alloc (getK8sObjectFromJob job)).2).1 k n :=
    Get_congr _ _ rfl _ _
  rw [hc, h]
  exact Get_congr _ _ rfl _ _

/-- Every pointer cached when the handler is called was cached before or is the
new record. -/
theorem stateAtHandlerCall_cached (C : common.Env) (s : State) (job : v12.Job)
    (k n : String) (b : Addr) (hb : jobCache.Get (stateAtHandlerCall C s job) k n = some b) :
    jobCache.Get s k n = some b ∨ b = s.next := by
  by_cases hkn : k = jobIdentity C job ∧ n = job.Namespace
  · obtain ⟨rfl, rfl⟩ := hkn
    rw [stateAtHandlerCall_get_self] at hb
    cases hg : jobCache.Get s (jobIdentity C job) job.Namespace with
    | none =>
      rw [hg] at hb
      right
      simpa using hb.symm
    | some e =>
      rw [hg] at hb
      left
      simpa using hb
  · rw [stateAtHandlerCall_get_other C s job k n hkn] at hb
    exact Or.inl hb

/-- After `Added` of a Job that is not ignored, with a handler that keeps the
cache, no pointer dangles and the job's pair is present. -/
theorem Added_establishes (C : common.Env) (h : ClientDiscoveryHandler) (s : State)
    (job : v12.Job) (hnd : s.NoDangling) (hh : KeepsCache h)
    (hig : C.ShouldIgnore job.Spec.Template.Annotations job.Spec.Template.Labels = false) :
    (Added C h s (.job job)).state.NoDangling
    ∧ (jobCache.Get (Added C h s (.job job)).state (jobIdentity C job) job.Namespace).isSome
        = true := by
  have hst : (Added C h s (.job job)).state = (h (stateAtHandlerCall C s job) s.next).1 := by
    simp only [Added, addUpdateJob_admitted C h s job hig]
  obtain ⟨hcache, hnext, -⟩ := hh (stateAtHandlerCall C s job) s.next
  rw [hst]
  constructor
  · intro k n b hb
    rw [Get_congr _ _ hcache] at hb
    have hlt : b < s.next + 1 := by
      rcases stateAtHandlerCall_cached C s job k n b hb with h1 | h1
      · exact Nat.lt_succ_of_lt (hnd k n b h1)
      · rw [h1]; exact Nat.lt_succ_self _
    rw [(stateAtHandlerCall_heap C s job).1] at hnext
    exact Nat.lt_of_lt_of_le hlt hnext
  · rw [Get_congr _ _ hcache, stateAtHandlerCall_get_self]
    rfl

/-- `Added` of a Job whose pair is already cached changes no cached record. -/
theorem Added_present_frame (C : common.Env) (h : ClientDiscoveryHandler) (s : State)
    (job : v12.Job) (hnd : s.NoDangling) (hh : KeepsCache h)
    (hp : (jobCache.Get s (jobIdentity C job) job.Namespace).isSome = true) (k n : String) :
    (Added C h s (.job job)).state.record k n = s.record k n := by
  cases hig : C.ShouldIgnore job.Spec.Template.Annotations job.Spec.Template.Labels with
  | true => simp only [Added, addUpdateJob_ignored C h s job hig]
  | false =>
    have hst : (Added C h s (.job job)).state = (h (stateAtHandlerCall C s job) s.next).1 := by
      simp only [Added, addUpdateJob_admitted C h s job hig]
    obtain ⟨hcache, -, hobjs⟩ := hh (stateAtHandlerCall C s job) s.next
    have hget : jobCache.Get (stateAtHandlerCall C s job) k n = jobCache.Get s k n := by
      by_cases hkn : k = jobIdentity C job ∧ n = job.Namespace
      · obtain ⟨rfl, rfl⟩ := hkn
        rw [stateAtHandlerCall_get_self]
        cases hg : jobCache.Get s (jobIdentity C job) job.Namespace with
        | none => simp [hg] at hp
        | some e => rfl
      · exact stateAtHandlerCall_get_other C s job k n hkn
    rw [hst]
    unfold State.record
    rw [Get_congr _ _ hcache, hget]
    cases hb : jobCache.Get s k n with
    | none => rfl
    | some b =>
      have h1 := hobjs k n b (hget.trans hb)
      have hne : b ≠ s.next := Nat.ne_of_lt (hnd k n b hb)
      simp only [Option.map_some']
      rw [h1, (stateAtHandlerCall_heap C s job).2 b hne]

/-- C10: `Added` is idempotent on the cache under redelivery.  With a handler
that does not modify the cache, delivering `Added` twice in a row with the same
Job leaves, for every (identity, namespace) pair, the same record (presence and
all fields, status included) as delivering it once. -/
theorem Added_idempotent (C : common.Env) (h : ClientDiscoveryHandler) (s : State)
    (job : v12.Job) (hnd : s.NoDangling) (hh : KeepsCache h) (k n : String) :
    (Added C h (Added C h s (.job job)).state (.job job)).state.record k n
      = (Added C h s (.job job)).state.record k n := by
  cases hig : C.ShouldIgnore job.Spec.Template.Annotations job.Spec.Template.Labels with
  | true =>
    have h1 : (Added C h s (.job job)).state = s := by
      simp only [Added, addUpdateJob_ignored C h s job hig]
    rw [h1, h1]
  | false =>
    obtain ⟨hnd1, hp1⟩ := Added_establishes C h s job hnd hh hig
    exact Added_present_frame C h (Added C h s (.job job)).state job hnd1 hh hp1 k n

theorem emptyState_NoDangling : emptyState.NoDangling := by
  intro k n a h
  cases h

theorem idleHandler_KeepsCache : KeepsCache idleHandler :=
  fun _ _ => ⟨rfl, Nat.le_refl _, fun _ _ _ _ => rfl⟩

theorem Added_idempotent_witness :
    emptyState.NoDangling ∧ KeepsCache idleHandler
    ∧ (Added demoEnv idleHandler (Added demoEnv idleHandler emptyState (.job demoJob)).state
          (.job demoJob)).state.record "checkout" "ns"
        = (Added demoEnv idleHandler emptyState (.job demoJob)).state.record "checkout" "ns" :=
  ⟨emptyState_NoDangling, idleHandler_KeepsCache,
   Added_idempotent demoEnv idleHandler emptyState demoJob emptyState_NoDangling
     idleHandler_KeepsCache "checkout" "ns"⟩

/-- C11: for a Job payload `Get` with `isRetry = true` returns the pointer that
`Cache.Get` finds for the job's identity and namespace together with a nil
error, and makes no call on `K8sClient`; so for two controller states with the
same cache the result is the same whatever their clients (nil, healthy or
failing) and transaction ids are. -/
theorem Get_retry_from_cache (C : common.Env) (job : v12.Job)
    (K8sClient K8sClient2 : Option KubeClient) (txId txId2 : String) (s s2 : State)
    (hcache : s.Cache = s2.Cache) :
    JobController.Get C K8sClient txId s true (.job job)
      = { value := .cached (jobCache.Get s (jobIdentity C job) job.Namespace)
          err := none, clientCalls := [] }
    ∧ JobController.Get C K8sClient txId s true (.job job)
      = JobController.Get C K8sClient2 txId2 s2 true (.job job) := by
  constructor
  · rfl
  · simp only [JobController.Get, getK8sObjectFromJob, if_true]
    rw [Get_congr s s2 hcache]

theorem Get_retry_from_cache_witness :
    addedState.Cache = (addedState.alloc zeroObject).1.Cache
    ∧ JobController.Get demoEnv none "tx1" addedState true (.job demoJob)
      = { value := .cached (some 0), err := none, clientCalls := [] }
    ∧ JobController.Get demoEnv none "tx1" addedState true (.job demoJob)
      = JobController.Get demoEnv (some failingClient) "tx2" (addedState.alloc zeroObject).1
          true (.job demoJob) :=
  ⟨rfl,
   (Get_retry_from_cache demoEnv demoJob none (some failingClient) "tx1" "tx2" addedState
      (addedState.alloc zeroObject).1 rfl).1,
   (Get_retry_from_cache demoEnv demoJob none (some failingClient) "tx1" "tx2" addedState
      (addedState.alloc zeroObject).1 rfl).2⟩

/-- C12: for a payload that is not a Job, `Added`, `GetProcessItemStatus` and
`UpdateProcessItemStatus` each return an error (`GetProcessItemStatus` with
status `NotProcessed`), make no handler call and leave the state unchanged; for
a Job, `GetProcessItemStatus` and `UpdateProcessItemStatus` return exactly what
`GetJobProcessStatus` and `UpdateJobProcessStatus` return. -/
theorem ProcessItem_type_mismatch (C : common.Env) (h : ClientDiscoveryHandler) (s : State)
    (r : String) (job : v12.Job) (status : String) :
    ((Added C h s (.other r)).err ≠ none
      ∧ (Added C h s (.other r)).calls = []
      ∧ (Added C h s (.other r)).state = s)
    ∧ ((GetProcessItemStatus C s (.other r)).2.2 ≠ none
      ∧ (GetProcessItemStatus C s (.other r)).2.1 = common.NotProcessed
      ∧ (GetProcessItemStatus C s (.other r)).1 = s)
    ∧ ((UpdateProcessItemStatus C s (.other r) status).2 ≠ none
      ∧ (UpdateProcessItemStatus C s (.other r) status).1 = s)
    ∧ GetProcessItemStatus C s (.job job) = jobCache.GetJobProcessStatus C s job
    ∧ UpdateProcessItemStatus C s (.job job) status
        = jobCache.UpdateJobProcessStatus C s job status := by
  refine ⟨⟨?_, rfl, rfl⟩, ⟨?_, rfl, rfl⟩, ⟨?_, rfl⟩, rfl, rfl⟩
  · simp [Added, addUpdateJob]
  · simp [GetProcessItemStatus]
  · simp [UpdateProcessItemStatus]

/-- C13: `Updated` and `Deleted` return nil, make no handler call and leave the
state unchanged for every payload and every state, so every lookup and every
cached record is the same after the event as before it. -/
theorem Updated_Deleted_noop (s : State) (obj oldObj : Object) :
    Updated s obj oldObj = { state := s, calls := [], err := none }
    ∧ Deleted s obj = { state := s, calls := [], err := none }
    ∧ (∀ k n, jobCache.Get (Updated s obj oldObj).state k n = jobCache.Get s k n
        ∧ (Updated s obj oldObj).state.record k n = s.record k n)
    ∧ (∀ k n, jobCache.Get (Deleted s obj).state k n = jobCache.Get s k n
        ∧ (Deleted s obj).state.record k n = s.record k n) :=
  ⟨rfl, rfl, fun _ _ => ⟨rfl, rfl⟩, fun _ _ => ⟨rfl, rfl⟩⟩

/-- `UpdateJobProcessStatus` when the identity is not a key of the cache. -/
theorem Update_absent (C : common.Env) (s : State) (job : v12.Job) (status : String)
    (h : s.Cache.cache (C.GetGlobalIdentifier job.Spec.Template.Annotations
          job.Spec.Template.Labels) = none) :
    (jobCache.UpdateJobProcessStatus C s job status).1 = s := by
  simp only [jobCache.UpdateJobProcessStatus, getK8sObjectFromJob, h]

/-- Reassigning a key to the value it already has leaves a map as it is. -/
theorem setKey_self {α : Type} (m : String → Option α) (k : String) (v : α)
    (h : m k = some v) : setKey m k v = m := by
  funext x
  by_cases hx : x = k
  · subst hx; simp [setKey, h]
  · simp [setKey, hx]

/-- Assigning a key twice in a row is assigning it once. -/
theorem setKey_twice {α : Type} (m : String → Option α) (k : String) (v : α) :
    setKey (setKey m k v) k v = setKey m k v := by
  funext x
  by_cases hx : x = k <;> simp [setKey, hx]

/-- Well-formedness and absence of dangling pointers survive any step that
keeps the cache maps, frees nothing and keeps namespace, annotations and labels
of every cached record. -/
theorem WellFormed_frame (C : common.Env) (s t : State) (hc : t.Cache = s.Cache)
    (hn : s.next ≤ t.next)
    (hf : ∀ k n a, jobCache.Get s k n = some a →
      (t.objs a).Namespace = (s.objs a).Namespace
      ∧ (t.objs a).Annotations = (s.objs a).Annotations
      ∧ (t.objs a).Labels = (s.objs a).Labels)
    (h : s.WellFormed C ∧ s.NoDangling) : t.WellFormed C ∧ t.NoDangling := by
  constructor
  · intro k e hk
    rw [hc] at hk
    obtain ⟨h1, h2, h3⟩ := h.1 k e hk
    refine ⟨h1, h2, fun n a hna => ?_⟩
    have hg : jobCache.Get s k n = some a := by
      rw [Get_eq, hk]; exact hna
    obtain ⟨f1, f2, f3⟩ := hf k n a hg
    rw [f1, f2, f3]
    exact h3 n a hna
  · intro k n a hg
    rw [Get_congr t s hc] at hg
    exact Nat.lt_of_lt_of_le (h.2 k n a hg) hn

/-- In a well-formed cache the fields of a cached record give back its pair. -/
theorem WellFormed_get (C : common.Env) (s : State) (h : s.WellFormed C) (k n : String)
    (b : Addr) (hg : jobCache.Get s k n = some b) :
    (s.objs b).Namespace = n ∧
      C.GetGlobalIdentifier (s.objs b).Annotations (s.objs b).Labels = k := by
  rw [Get_eq] at hg
  cases hk : s.Cache.cache k with
  | none => simp [hk] at hg
  | some e =>
    rw [hk] at hg
    exact (h k e hk).2.2 n b hg

/-- Well-formedness survives storing an allocated record under its own identity
and namespace, next to namespaces `J` that the identity already had. -/
theorem WellFormed_insert (C : common.Env) (s : State) (i ns : String) (r : Addr)
    (J : String → Option Addr)
    (hJ : ∀ n a, J n = some a → jobCache.Get s i n = some a)
    (hr : r < s.next) (hns : (s.objs r).Namespace = ns)
    (hid : C.GetGlobalIdentifier (s.objs r).Annotations (s.objs r).Labels = i)
    (h : s.WellFormed C ∧ s.NoDangling) :
    State.WellFormed C { s with Cache := ⟨setKey s.Cache.cache i ⟨i, setKey J ns r⟩⟩ }
    ∧ State.NoDangling { s with Cache := ⟨setKey s.Cache.cache i ⟨i, setKey J ns r⟩⟩ } := by
  constructor
  · intro k e hk
    by_cases hki : k = i
    · subst hki
      have he : e = ⟨k, setKey J ns r⟩ := by
        have : setKey s.Cache.cache k ⟨k, setKey J ns r⟩ k = some e := hk
        simp [setKey] at this
        exact this.symm
      subst he
      refine ⟨rfl, ⟨ns, r, by simp [setKey]⟩, ?_⟩
      intro n a hna
      by_cases hn : n = ns
      · subst hn
        have : a = r := by
          have h2 : setKey J n r n = some a := hna
          simp [setKey] at h2
          exact h2.symm
        subst this
        exact ⟨hns, hid⟩
      · have h2 : setKey J ns r n = some a := hna
        simp [setKey, hn] at h2
        exact WellFormed_get C s h.1 k n a (hJ n a h2)
    · have h2 : setKey s.Cache.cache i ⟨i, setKey J ns r⟩ k = some e := hk
      simp [setKey, hki] at h2
      exact h.1 k e h2
  · intro k n a hg
    rw [Get_eq] at hg
    by_cases hki : k = i
    · subst hki
      have h2 : (setKey s.Cache.cache k ⟨k, setKey J ns r⟩ k).bind (fun e => e.Jobs n)
          = some a := hg
      by_cases hn : n = ns
      · subst hn
        simp [setKey] at h2
        rw [← h2]; exact hr
      · simp [setKey, hn] at h2
        exact h.2 k n a (hJ n a h2)
    · have h2 : (setKey s.Cache.cache i ⟨i, setKey J ns r⟩ k).bind (fun e => e.Jobs n)
          = some a := hg
      simp only [setKey, hki, if_false] at h2
      exact h.2 k n a (by rw [Get_eq]; exact h2)

/-- Building a record keeps the cache well formed. -/
theorem WellFormed_alloc (C : common.Env) (s : State) (o : common.K8sObject)
    (h : s.WellFormed C ∧ s.NoDangling) :
    (s.alloc o).1.WellFormed C ∧ (s.alloc o).1.NoDangling := by
  refine WellFormed_frame C s (s.alloc o).1 rfl (Nat.le_succ _) ?_ h
  intro k n a hg
  have hne : a ≠ s.next := Nat.ne_of_lt (h.2 k n a hg)
  simp [State.alloc, setCell, hne]

/-- Writing the status of any record keeps the cache well formed. -/
theorem WellFormed_setStatus (C : common.Env) (s : State) (a : Addr) (status : String)
    (h : s.WellFormed C ∧ s.NoDangling) :
    State.WellFormed C { s with objs := setCell s.objs a { s.objs a with Status := status } }
    ∧ State.NoDangling
        { s with objs := setCell s.objs a { s.objs a with Status := status } } := by
  refine WellFormed_frame C s _ rfl (Nat.le_refl _) ?_ h
  intro k n b _
  by_cases hb : b = a
  · subst hb; simp [setCell]
  · simp [setCell, hb]

/-- `Put` of an allocated record keeps the cache well formed. -/
theorem WellFormed_Put (C : common.Env) (s : State) (r : Addr) (hr : r < s.next)
    (h : s.WellFormed C ∧ s.NoDangling) :
    (jobCache.Put C s r).1.WellFormed C ∧ (jobCache.Put C s r).1.NoDangling := by
  cases h1 : s.Cache.cache (C.GetGlobalIdentifier (s.objs r).Annotations (s.objs r).Labels) with
  | none =>
    rw [Put_new_identity C s r h1]
    exact WellFormed_insert C s _ _ r emptyMap (fun n a hna => by cases hna) hr rfl rfl h
  | some e =>
    cases h2 : e.Jobs (s.objs r).Namespace with
    | none =>
      rw [Put_new_namespace C s r e h1 h2, (h.1 _ e h1).1]
      refine WellFormed_insert C s _ _ r e.Jobs (fun n a hna => ?_) hr rfl rfl h
      rw [Get_eq, h1]; exact hna
    | some a =>
      rw [Put_present C s r e a h1 h2]
      exact h

/-- `UpdateJobProcessStatus` keeps the cache well formed. -/
theorem WellFormed_Update (C : common.Env) (s : State) (job : v12.Job) (status : String)
    (h : s.WellFormed C ∧ s.NoDangling) :
    (jobCache.UpdateJobProcessStatus C s job status).1.WellFormed C
    ∧ (jobCache.UpdateJobProcessStatus C s job status).1.NoDangling := by
  cases h1 : s.Cache.cache (C.GetGlobalIdentifier job.Spec.Template.Annotations
      job.Spec.Template.Labels) with
  | none =>
    rw [Update_absent C s job status h1]
    exact h
  | some e =>
    have hid := (h.1 _ e h1).1
    cases h2 : e.Jobs job.Namespace with
    | some a =>
      rw [Update_present C s job status e a h1 h2, hid, setKey_self _ _ e h1]
      exact WellFormed_setStatus C s a status h
    | none =>
      rw [Update_new_namespace C s job status e h1 h2, hid, setKey_twice]
      have hA := WellFormed_alloc C s { getK8sObjectFromJob job with Status := status } h
      have hB := WellFormed_insert C
        (s.alloc { getK8sObjectFromJob job with Status := status }).1
        (C.GetGlobalIdentifier job.Spec.Template.Annotations job.Spec.Template.Labels)
        job.Namespace s.next e.Jobs
        (fun n a hna => by
          rw [Get_eq]
          show (s.Cache.cache _).bind _ = some a
          rw [h1]; exact hna)
        (Nat.lt_succ_self _)
        (by simp [State.alloc, setCell, getK8sObjectFromJob])
        (by simp [State.alloc, setCell, getK8sObjectFromJob])
        hA
      exact hB

/-- A handler that keeps the cache keeps its indexing. -/
theorem KeepsCache_KeepsIndex (h : ClientDiscoveryHandler) (hh : KeepsCache h) :
    KeepsIndex h := by
  intro s a
  obtain ⟨hcache, hnext, hobjs⟩ := hh s a
  refine ⟨hcache, hnext, fun k n b hg => ?_⟩
  rw [hobjs k n b hg]
  exact ⟨rfl, rfl, rfl⟩

/-- `addUpdateJob` with a handler that keeps the indexing keeps the cache well
formed. -/
theorem WellFormed_addUpdateJob (C : common.Env) (h : ClientDiscoveryHandler) (s : State)
    (obj : Object) (hh : KeepsIndex h) (hs : s.WellFormed C ∧ s.NoDangling) :
    (addUpdateJob C h s obj).state.WellFormed C
    ∧ (addUpdateJob C h s obj).state.NoDangling := by
  cases obj with
  | other r => exact hs
  | job job =>
    cases hig : C.ShouldIgnore job.Spec.Template.Annotations job.Spec.Template.Labels with
    | true =>
      rw [addUpdateJob_ignored C h s job hig]
      exact hs
    | false =>
      rw [addUpdateJob_admitted C h s job hig]
      have h1 := WellFormed_alloc C s (getK8sObjectFromJob job) hs
      have h2 := WellFormed_Put C (s.alloc (getK8sObjectFromJob job)).1 s.next
        (Nat.lt_succ_self _) h1
      have h3 := WellFormed_setStatus C
        (jobCache.Put C (s.alloc (getK8sObjectFromJob job)).1 s.next).1
        (jobCache.Put C (s.alloc (getK8sObjectFromJob job)).1 s.next).2
        common.ProcessingInProgress h2
      have h4 : (stateAtHandlerCall C s job).WellFormed C
          ∧ (stateAtHandlerCall C s job).NoDangling := h3
      obtain ⟨hcache, hnext, hobjs⟩ := hh (stateAtHandlerCall C s job) s.next
      exact WellFormed_frame C (stateAtHandlerCall C s job) _ hcache hnext hobjs h4

/-- Every memory reachable with handlers that keep the indexing is well formed
and has no dangling cached pointer. -/
theorem Reachable_invariant (C : common.Env) (s : State) (h : Reachable C KeepsIndex s) :
    s.WellFormed C ∧ s.NoDangling := by
  induction h with
  | init objs next =>
    constructor
    · intro k e hk
      cases hk
    · intro k n a hg
      cases hg
  | build s o _ ih => exact WellFormed_alloc C s o ih
  | put s r _ hr ih => exact WellFormed_Put C s r hr ih
  | update s job status _ ih => exact WellFormed_Update C s job status ih
  | addUpdate s hd obj _ hh ih => exact WellFormed_addUpdateJob C hd s obj hh ih

/-- C20, as stated, fails: `addUpdateJob` hands the handler the pointer of the
record it has just cached.  One `addUpdateJob` call on a fresh cache, with a
handler that writes another namespace into that record, leaves under
(`checkout`, `ns`) a record whose `Namespace` is `elsewhere`: the reachable
cache is not well formed. -/
theorem Reachable_any_handler_not_WellFormed :
    Reachable demoEnv (fun _ => True) renamedState
    ∧ jobCache.Get renamedState "checkout" "ns" = some 0
    ∧ (renamedState.objs 0).Namespace = "elsewhere"
    ∧ ¬ renamedState.WellFormed demoEnv := by
  refine ⟨?_, by decide, by decide, ?_⟩
  · exact Reachable.addUpdate emptyState renamingHandler (.job demoJob)
      (Reachable.init _ 0) trivial
  · intro hw
    have hk : renamedState.Cache.cache "checkout"
        = some ⟨"checkout", setKey emptyMap "ns" 0⟩ := rfl
    have h1 := ((hw "checkout" _ hk).2.2 "ns" 0 rfl).1
    exact absurd h1 (by decide)

/-- C20, amended: in every cache reachable from `NewJobCache()` by `Put`,
`UpdateJobProcessStatus` and `addUpdateJob` calls whose handlers leave the cache
maps and the namespace, annotations and labels of cached records as they are
(they may write `Status`), each entry stored under key `k` has `Identity = k`
and a non-empty `Jobs` map, and each record stored in it under namespace `n` has
`Namespace = n` and identity `k`; so reassigning an entry under its `Identity`,
as `UpdateJobProcessStatus` does, leaves the map as it is. -/
theorem Reachable_WellFormed (C : common.Env) (s : State) (h : Reachable C KeepsIndex s) :
    (∀ k e, s.Cache.cache k = some e →
      e.Identity = k ∧
      (∃ n a, e.Jobs n = some a) ∧
      ∀ n a, e.Jobs n = some a →
        (s.objs a).Namespace = n ∧
        C.GetGlobalIdentifier (s.objs a).Annotations (s.objs a).Labels = k)
    ∧ ∀ k e, s.Cache.cache k = some e → setKey s.Cache.cache e.Identity e = s.Cache.cache := by
  have hw := (Reachable_invariant C s h).1
  refine ⟨hw, fun k e hk => ?_⟩
  rw [(hw k e hk).1]
  exact setKey_self _ _ e hk

/-- The handler that marks its record as processed keeps the indexing. -/
theorem statusHandler_KeepsIndex : KeepsIndex statusHandler := by
  intro s a
  refine ⟨rfl, Nat.le_refl _, fun k n b _ => ?_⟩
  by_cases hb : b = a
  · subst hb; simp [statusHandler, setCell]
  · simp [statusHandler, setCell, hb]

theorem handledState_Reachable : Reachable demoEnv KeepsIndex handledState :=
  Reachable.addUpdate emptyState statusHandler (.job demoJob) (Reachable.init _ 0)
    statusHandler_KeepsIndex

theorem addedState_Reachable : Reachable demoEnv KeepsIndex addedState :=
  Reachable.addUpdate emptyState idleHandler (.job demoJob) (Reachable.init _ 0)
    (KeepsCache_KeepsIndex idleHandler idleHandler_KeepsCache)

theorem Reachable_WellFormed_witness :
    Reachable demoEnv KeepsIndex handledState
    ∧ (handledState.record "checkout" "ns").map (fun o => o.Status) = some common.Processed
    ∧ ∀ k e, handledState.Cache.cache k = some e →
        setKey handledState.Cache.cache e.Identity e = handledState.Cache.cache :=
  ⟨handledState_Reachable, by decide,
   (Reachable_WellFormed demoEnv handledState handledState_Reachable).2⟩

namespace common

/-- `Map.Get` after `Map.Put`. -/
theorem Map_Get_Put (m : Map) (k v k2 : String) :
    (m.Put k v).Get k2 = if k2 = k then v else m.Get k2 := by
  by_cases h : k2 = k
  · subst h; simp [Map.Get, Map.Put, AList.lookup_insert]
  · simp [Map.Get, Map.Put, AList.lookup_insert_ne h, h]

/-- `Map.Get` after `Map.Delete`. -/
theorem Map_Get_Delete (m : Map) (k k2 : String) :
    (m.Delete k).Get k2 = if k2 = k then "" else m.Get k2 := by
  by_cases h : k2 = k
  · subst h; simp [Map.Get, Map.Delete, AList.lookup_erase]
  · simp [Map.Get, Map.Delete, AList.lookup_erase_ne h, h]

/-- `MapOfMaps.Get` after `MapOfMaps.Put`. -/
theorem MapOfMaps_Get_Put (m : MapOfMaps) (p k v q : String) :
    (m.Put p k v).Get q
      = if q = p then some (((m.Get p).getD NewMap).Put k v) else m.Get q := by
  by_cases h : q = p
  · subst h; simp [MapOfMaps.Get, MapOfMaps.Put, AList.lookup_insert]
  · simp [MapOfMaps.Get, MapOfMaps.Put, AList.lookup_insert_ne h, h]

/-- `MapOfMaps.Get` after `MapOfMaps.Delete`. -/
theorem MapOfMaps_Get_Delete (m : MapOfMaps) (p q : String) :
    (m.Delete p).Get q = if q = p then none else m.Get q := by
  by_cases h : q = p
  · subst h; simp [MapOfMaps.Get, MapOfMaps.Delete, AList.lookup_erase]
  · simp [MapOfMaps.Get, MapOfMaps.Delete, AList.lookup_erase_ne h, h]

/-- `MapOfMaps.Get` after `MapOfMaps.DeleteMap`. -/
theorem MapOfMaps_Get_DeleteMap (m : MapOfMaps) (p k q : String) :
    (m.DeleteMap p k).Get q
      = if q = p then (m.Get p).map (fun inner => inner.Delete k) else m.Get q := by
  unfold MapOfMaps.DeleteMap
  cases hp : m.cache.lookup p with
  | none =>
    by_cases h : q = p
    · subst h; simp [MapOfMaps.Get, hp]
    · simp [h]
  | some inner =>
    by_cases h : q = p
    · subst h; simp [MapOfMaps.Get, hp, AList.lookup_insert]
    · simp [MapOfMaps.Get, AList.lookup_insert_ne h, h]

end common

/-- C14: after `m.Put(p, k, v)` on a `MapOfMaps`, `m.Get(p)` is non-nil and its
`Get(k)` is `v`; every other inner key under `p` has the value it had before
(the inner map that existed is kept, a new one is created only when there was
none); the inner maps of all other outer keys are unchanged. -/
theorem MapOfMaps_Put_spec (m : common.MapOfMaps) (p k v : String) :
    ∃ inner, (m.Put p k v).Get p = some inner
      ∧ inner.Get k = v
      ∧ (∀ k2, k2 ≠ k → inner.Get k2 = ((m.Get p).getD common.NewMap).Get k2)
      ∧ ∀ q, q ≠ p → (m.Put p k v).Get q = m.Get q := by
  refine ⟨((m.Get p).getD common.NewMap).Put k v, ?_, ?_, ?_, ?_⟩
  · rw [common.MapOfMaps_Get_Put]; simp
  · rw [common.Map_Get_Put]; simp
  · intro k2 h
    rw [common.Map_Get_Put]; simp [h]
  · intro q h
    rw [common.MapOfMaps_Get_Put]; simp [h]

/-- C15: after `m.DeleteMap(p, k)` on a `MapOfMaps` in which `p` is present,
`p` is still present (also when its inner map has become empty), `Get(k)` of
its inner map is the empty string, every sibling inner key keeps its value, and
all other outer keys are unchanged. -/
theorem MapOfMaps_DeleteMap_spec (m : common.MapOfMaps) (p k : String) (old : common.Map)
    (hp : m.Get p = some old) :
    ∃ inner, (m.DeleteMap p k).Get p = some inner
      ∧ inner.Get k = ""
      ∧ (∀ k2, k2 ≠ k → inner.Get k2 = old.Get k2)
      ∧ ∀ q, q ≠ p → (m.DeleteMap p k).Get q = m.Get q := by
  refine ⟨old.Delete k, ?_, ?_, ?_, ?_⟩
  · rw [common.MapOfMaps_Get_DeleteMap]; simp [hp]
  · rw [common.Map_Get_Delete]; simp
  · intro k2 h
    rw [common.Map_Get_Delete]; simp [h]
  · intro q h
    rw [common.MapOfMaps_Get_DeleteMap]; simp [h]

theorem MapOfMaps_DeleteMap_spec_witness :
    common.demoMapOfMaps.Get "pkey1"
        = some ((common.NewMap.Put "dev.a.global1" "127.0.10.1").Put "dev.a.global2"
            "127.0.10.2")
    ∧ ∃ inner, (common.demoMapOfMaps.DeleteMap "pkey1" "dev.a.global1").Get "pkey1" = some inner
      ∧ inner.Get "dev.a.global1" = ""
      ∧ (∀ k2, k2 ≠ "dev.a.global1" → inner.Get k2
          = ((common.NewMap.Put "dev.a.global1" "127.0.10.1").Put "dev.a.global2"
              "127.0.10.2").Get k2)
      ∧ ∀ q, q ≠ "pkey1" →
          (common.demoMapOfMaps.DeleteMap "pkey1" "dev.a.global1").Get q
            = common.demoMapOfMaps.Get q :=
  ⟨rfl, MapOfMaps_DeleteMap_spec common.demoMapOfMaps "pkey1" "dev.a.global1" _ rfl⟩

/-- A key that is absent and is not put stays absent through any calls. -/
theorem MapOfMaps_absent_stays (calls : List common.MapOfMapsCall) (m : common.MapOfMaps)
    (q : String) (hm : m.Get q = none) (hq : q ∉ common.MapOfMapsCall.putKeys calls) :
    (calls.foldl common.MapOfMapsCall.run m).Get q = none := by
  induction calls generalizing m with
  | nil => exact hm
  | cons c cs ih =>
    cases c with
    | put p k v =>
      have hne : q ≠ p := fun h => hq (by simp [common.MapOfMapsCall.putKeys, h])
      have hq2 : q ∉ common.MapOfMapsCall.putKeys cs := fun h =>
        hq (by simp [common.MapOfMapsCall.putKeys, h])
      refine ih _ ?_ hq2
      show (m.Put p k v).Get q = none
      rw [common.MapOfMaps_Get_Put]; simp [hne, hm]
    | delete p =>
      refine ih _ ?_ hq
      show (m.Delete p).Get q = none
      rw [common.MapOfMaps_Get_Delete]; simp [hm]
    | deleteMap p k =>
      refine ih _ ?_ hq
      show (m.DeleteMap p k).Get q = none
      rw [common.MapOfMaps_Get_DeleteMap]
      by_cases h : q = p
      · subst h; simp [hm]
      · simp [h, hm]

/-- C16: after `m.Delete(p)` on a `MapOfMaps`, `m.Get(p)` is nil; for every
other outer key `Get` returns what it returned before; and `Get` of a key that
no call has put is nil (a value, not an error), whatever calls were made on a
fresh container. -/
theorem MapOfMaps_Delete_spec (m : common.MapOfMaps) (p : String) :
    (m.Delete p).Get p = none
    ∧ (∀ q, q ≠ p → (m.Delete p).Get q = m.Get q)
    ∧ ∀ (calls : List common.MapOfMapsCall) (q : String),
        q ∉ common.MapOfMapsCall.putKeys calls →
        (calls.foldl common.MapOfMapsCall.run common.NewMapOfMaps).Get q = none := by
  refine ⟨?_, ?_, ?_⟩
  · rw [common.MapOfMaps_Get_Delete]; simp
  · intro q h
    rw [common.MapOfMaps_Get_Delete]; simp [h]
  · intro calls q hq
    exact MapOfMaps_absent_stays calls common.NewMapOfMaps q rfl hq

theorem MapOfMaps_Delete_spec_witness :
    (common.demoMapOfMaps.Delete "pkey2").Get "pkey1" = common.demoMapOfMaps.Get "pkey1"
    ∧ ([common.MapOfMapsCall.put "pkey1" "a" "b", .delete "pkey2"].foldl
          common.MapOfMapsCall.run common.NewMapOfMaps).Get "pkey2" = none :=
  ⟨(MapOfMaps_Delete_spec common.demoMapOfMaps "pkey2").2.1 "pkey1" (by decide),
   (MapOfMaps_Delete_spec common.demoMapOfMaps "pkey2").2.2
      [.put "pkey1" "a" "b", .delete "pkey2"] "pkey2" (by decide)⟩

/-- Inserting under a key that is present keeps the number of keys. -/
theorem Table_keys_length_insert_present {V : Type} (t : common.Table V) (k : String) (v : V)
    (h : k ∈ t.keys) : (t.insert k v).keys.length = t.keys.length := by
  rw [AList.keys_insert, List.length_cons, List.length_erase_of_mem h]
  have : 0 < t.keys.length := List.length_pos_of_mem h
  omega

/-- The keys after a sequence of `Put` and `PutMapofMaps` calls are the keys
before together with the outer keys of the calls. -/
theorem MapOfMapOfMaps_keys_run (calls : List common.MapOfMapOfMapsCall)
    (m : common.MapOfMapOfMaps) :
    (calls.foldl common.MapOfMapOfMapsCall.run m).cache.keys.toFinset
      = m.cache.keys.toFinset ∪ (calls.map common.MapOfMapOfMapsCall.outerKey).toFinset := by
  induction calls generalizing m with
  | nil => simp
  | cons c cs ih =>
    rw [List.foldl_cons, ih]
    cases c with
    | put p sk k v =>
      ext x
      simp only [common.MapOfMapOfMapsCall.run, common.MapOfMapOfMaps.Put, AList.keys_insert,
        common.MapOfMapOfMapsCall.outerKey, List.map_cons, List.toFinset_cons,
        Finset.mem_union, Finset.mem_insert, List.mem_toFinset]
      by_cases hx : x = p
      · simp [hx]
      · simp [hx, List.mem_erase_of_ne hx]
    | putMapofMaps p mm =>
      ext x
      simp only [common.MapOfMapOfMapsCall.run, common.MapOfMapOfMaps.PutMapofMaps,
        AList.keys_insert, common.MapOfMapOfMapsCall.outerKey, List.map_cons,
        List.toFinset_cons, Finset.mem_union, Finset.mem_insert, List.mem_toFinset]
      by_cases hx : x = p
      · simp [hx]
      · simp [hx, List.mem_erase_of_ne hx]

/-- C17: after any sequence of `Put` and `PutMapofMaps` calls on a fresh
`MapOfMapOfMaps`, `Len()` is the number of distinct outer keys used in the
sequence; a `Put` under an outer key that is present does not change `Len`; and
deleting a second-level key through the `MapOfMaps` returned by `Get` does not
change `Len`. -/
theorem MapOfMapOfMaps_Len_spec :
    (∀ calls : List common.MapOfMapOfMapsCall,
      (calls.foldl common.MapOfMapOfMapsCall.run common.NewMapOfMapOfMaps).Len
        = ((calls.map common.MapOfMapOfMapsCall.outerKey).dedup).length)
    ∧ (∀ (m : common.MapOfMapOfMaps) (p sk k v : String), (m.Get p).isSome = true →
        (m.Put p sk k v).Len = m.Len)
    ∧ (∀ (m : common.MapOfMapOfMaps) (p sk : String), (m.DeleteVia p sk).Len = m.Len) := by
  refine ⟨?_, ?_, ?_⟩
  · intro calls
    have h := MapOfMapOfMaps_keys_run calls common.NewMapOfMapOfMaps
    have hn := (calls.foldl common.MapOfMapOfMapsCall.run common.NewMapOfMapOfMaps).cache.keys_nodup
    unfold common.MapOfMapOfMaps.Len
    rw [← List.toFinset_card_of_nodup hn, h, ← List.card_toFinset]
    simp [common.NewMapOfMapOfMaps]
  · intro m p sk k v hp
    have hmem : p ∈ m.cache.keys := by
      rw [← AList.mem_keys, ← AList.lookup_isSome]
      exact hp
    exact Table_keys_length_insert_present m.cache p _ hmem
  · intro m p sk
    unfold common.MapOfMapOfMaps.DeleteVia
    cases hp : m.cache.lookup p with
    | none => rfl
    | some mm =>
      have hmem : p ∈ m.cache.keys := by
        rw [← AList.mem_keys, ← AList.lookup_isSome, hp]
        rfl
      exact Table_keys_length_insert_present m.cache p _ hmem

theorem MapOfMapOfMaps_Len_spec_witness :
    (common.demoCalls.foldl common.MapOfMapOfMapsCall.run common.NewMapOfMapOfMaps).Len = 2
    ∧ ((common.demoCalls.foldl common.MapOfMapOfMapsCall.run common.NewMapOfMapOfMaps).Put
        "pkey1" "dev.a.global3" "127.0.10.3" "ns7").Len
      = (common.demoCalls.foldl common.MapOfMapOfMapsCall.run common.NewMapOfMapOfMaps).Len :=
  ⟨(MapOfMapOfMaps_Len_spec.1 common.demoCalls).trans (by decide),
   MapOfMapOfMaps_Len_spec.2.1 _ "pkey1" "dev.a.global3" "127.0.10.3" "ns7" (by rfl)⟩

/-- Logging a fold: the log is the list mapped, after what was there. -/
theorem foldl_log {α β : Type} (f : α → β) (l : List α) (acc : List β) :
    l.foldl (fun a e => a ++ [f e]) acc = acc ++ l.map f := by
  induction l generalizing acc with
  | nil => simp
  | cons x xs ih => simp [List.foldl_cons, ih]

/-- The invocations of `Range` are the stored entries. -/
theorem rangeCalls_eq {V : Type} (t : common.Table V) :
    common.rangeCalls t = t.entries.map (fun e => (e.1, e.2)) := by
  unfold common.rangeCalls common.rangeOver
  rw [foldl_log (fun e : (_ : String) × V => (e.1, e.2))]
  rfl

/-- `Range` with any callback is the callback folded over the invocations. -/
theorem rangeOver_eq {V σ : Type} (t : common.Table V) (fn : String → V → σ → σ) (acc : σ) :
    common.rangeOver t fn acc
      = (common.rangeCalls t).foldl (fun a kv => fn kv.1 kv.2 a) acc := by
  rw [rangeCalls_eq, List.foldl_map]
  rfl

/-- On every table `Range` passes each stored key once, with its value. -/
theorem rangeVisits {V : Type} (t : common.Table V) : common.RangeVisitsEachKeyOnce t := by
  unfold common.RangeVisitsEachKeyOnce
  rw [rangeCalls_eq]
  refine ⟨?_, ?_, ?_⟩
  · have h : (t.entries.map (fun e => (e.1, e.2))).map Prod.fst = t.keys := by
      simp [AList.keys, List.keys, Function.comp_def]
    rw [h]
    exact t.keys_nodup
  · intro k v
    rw [← Option.mem_def, AList.mem_lookup_iff]
    constructor
    · intro h
      obtain ⟨e, he, heq⟩ := List.mem_map.mp h
      cases e with
      | mk a b =>
        simp only [Prod.mk.injEq] at heq
        obtain ⟨rfl, rfl⟩ := heq
        exact he
    · intro h
      exact List.mem_map.mpr ⟨⟨k, v⟩, h, rfl⟩
  · simp [AList.keys, List.keys]

/-- C18: for `Map`, `MapOfMaps` and `SidecarEgressMap`, `Range(callback)` is the
callback applied to one invocation per stored top-level key: every key is
passed once, a key is passed with a value exactly when that value is stored
under it (so no other key is passed and the value is never nil), and a counting
callback ends at the number of stored top-level keys. -/
theorem Range_spec (m : common.Map) (mm : common.MapOfMaps) (sm : common.SidecarEgressMap) :
    (common.RangeVisitsEachKeyOnce m.cache
      ∧ (∀ (σ : Type) (fn : String → String → σ → σ) (acc : σ),
          m.Range fn acc = (common.rangeCalls m.cache).foldl (fun a kv => fn kv.1 kv.2 a) acc)
      ∧ m.Range (fun _ _ n => n + 1) 0 = m.cache.keys.length)
    ∧ (common.RangeVisitsEachKeyOnce mm.cache
      ∧ (∀ (σ : Type) (fn : String → common.Map → σ → σ) (acc : σ),
          mm.Range fn acc
            = (common.rangeCalls mm.cache).foldl (fun a kv => fn kv.1 kv.2 a) acc)
      ∧ mm.Range (fun _ _ n => n + 1) 0 = mm.cache.keys.length)
    ∧ (common.RangeVisitsEachKeyOnce sm.cache
      ∧ (∀ (σ : Type)
            (fn : String → common.Table (common.Table common.SidecarEgress) → σ → σ)
            (acc : σ),
          sm.Range fn acc
            = (common.rangeCalls sm.cache).foldl (fun a kv => fn kv.1 kv.2 a) acc)
      ∧ sm.Range (fun _ _ n => n + 1) 0 = sm.cache.keys.length) := by
  have count : ∀ (V : Type) (t : common.Table V),
      common.rangeOver t (fun _ _ n => n + 1) 0 = t.keys.length := by
    intro V t
    rw [rangeOver_eq, ← (rangeVisits t).2.2]
    generalize common.rangeCalls t = l
    have : ∀ (k : Nat), l.foldl (fun a (_ : String × V) => a + 1) k = k + l.length := by
      induction l with
      | nil => intro k; rfl
      | cons x xs ih => intro k; simp [List.foldl_cons, ih]; omega
    simpa using this 0
  exact ⟨⟨rangeVisits _, fun _ fn acc => rangeOver_eq _ fn acc, count _ _⟩,
    ⟨rangeVisits _, fun _ fn acc => rangeOver_eq _ fn acc, count _ _⟩,
    ⟨rangeVisits _, fun _ fn acc => rangeOver_eq _ fn acc, count _ _⟩⟩

theorem Range_spec_witness :
    common.demoMap.Range (fun _ _ n => n + 1) 0 = 3 :=
  (Range_spec common.demoMap common.NewMapOfMaps common.NewSidecarEgressMap).1.2.2.trans
    (by decide)

/-- C19 fails on a first delivery: when `Put` has returned (and with it released
the mutex it holds until it returns) the record it handed back is the one the
cache holds for (`checkout`, `ns`), with status `not-processed`; the assignment
that `addUpdateJob` then makes on that pointer changes the status of this
cached record to `processing-in-progress`.  This write is made by
`addUpdateJob` itself, outside every `jobCache` method. -/
theorem addUpdateJob_writes_cached_status :
    jobCache.Get
        (jobCache.Put demoEnv (emptyState.alloc (getK8sObjectFromJob demoJob)).1
          (emptyState.alloc (getK8sObjectFromJob demoJob)).2).1 "checkout" "ns"
      = some (jobCache.Put demoEnv (emptyState.alloc (getK8sObjectFromJob demoJob)).1
          (emptyState.alloc (getK8sObjectFromJob demoJob)).2).2
    ∧ ((jobCache.Put demoEnv (emptyState.alloc (getK8sObjectFromJob demoJob)).1
          (emptyState.alloc (getK8sObjectFromJob demoJob)).2).1.record "checkout" "ns").map
        (fun o => o.Status) = some common.NotProcessed
    ∧ (addUpdateJob demoEnv idleHandler emptyState (.job demoJob)).calls.map
        (fun c => (c.1.record "checkout" "ns").map (fun o => o.Status))
      = [some common.ProcessingInProgress]
    ∧ common.NotProcessed ≠ common.ProcessingInProgress := by
  decide

end Admiral
